import Mathlib

/-!
Verification development for the amenities-dashboard data pipeline.

The definitions below are a shallow embedding of `scripts/pipeline.mjs`:
pure JavaScript functions become Lean functions on `List Char` / `String` /
`Int` / `ℚ`, JS `Map`s become insertion-ordered association lists, and the
per-row / per-point loops become folds.  IEEE doubles are modelled by exact
rationals, JS machine strings by Lean strings.  Modelling notes appear on
each definition.
-/

namespace Pipeline

/-- The JS `\s` / `trim` whitespace class (ECMA-262 WhiteSpace ∪ LineTerminator),
used by `String.prototype.trim` and the `/\s+/`, `/\s*-\s*/` regexes in
`normalizeName` of `scripts/pipeline.mjs`. -/
def isJsWS (c : Char) : Bool :=
  c = ' ' || c = '\t' || c = '\n' || c = Char.ofNat 11 || c = Char.ofNat 12 ||
  c = '\r' || c = Char.ofNat 0xa0 || c = Char.ofNat 0x1680 ||
  (0x2000 ≤ c.toNat && c.toNat ≤ 0x200a) ||
  c = Char.ofNat 0x2028 || c = Char.ofNat 0x2029 || c = Char.ofNat 0x202f ||
  c = Char.ofNat 0x205f || c = Char.ofNat 0x3000 || c = Char.ofNat 0xfeff

/-- The ASCII apostrophe, written via its code point. -/
def aposQuote : Char := Char.ofNat 39

/-- The character class of the `name.replace(/[â€™']/g, "")` step of
`normalizeName` in `scripts/pipeline.mjs`.  The source file literally contains
the three bytes-mojibake characters U+00E2, U+20AC, U+2122 plus the ASCII
apostrophe inside the class. -/
def aposChar (c : Char) : Bool :=
  c = 'â' || c = '€' || c = '™' || c = aposQuote

/-- `String.prototype.toUpperCase` per character.  Modelled as ASCII case
mapping via `Char.toUpper`, extended with `â ↦ Â` (the one non-ASCII letter
relevant to the `normalizeName` character class); all other code points are
returned unchanged.  All strings appearing in the claims are ASCII. -/
def jsUpperChar (c : Char) : Char :=
  if c = 'â' then 'Â' else c.toUpper

/-- `String.prototype.trim`: drop JS whitespace from both ends. -/
def jsTrim (l : List Char) : List Char :=
  ((l.dropWhile isJsWS).reverse.dropWhile isJsWS).reverse

/-- The `name.replace(/\s+/g, " ")` step: every maximal run of JS whitespace
becomes a single space. -/
def collapseWS : List Char → List Char
  | [] => []
  | [c] => if isJsWS c then [' '] else [c]
  | c :: d :: rest =>
    if isJsWS c && isJsWS d then collapseWS (d :: rest)
    else if isJsWS c then ' ' :: collapseWS (d :: rest)
    else c :: collapseWS (d :: rest)

/-- The `name.replace(/&/g, "AND")` step. -/
def replaceAmp : List Char → List Char
  | [] => []
  | c :: rest =>
    if c = '&' then 'A' :: 'N' :: 'D' :: replaceAmp rest
    else c :: replaceAmp rest

/-- The `name.replace(/[â€™']/g, "")` step: delete the four class characters. -/
def removeApos (l : List Char) : List Char :=
  l.filter (fun c => !aposChar c)

/-- Worker for the `name.replace(/\s*-\s*/g, "-")` step.  The flag records
whether the previously kept character was a hyphen (whose trailing whitespace
run is still being absorbed).  A whitespace character is dropped exactly when
it is absorbed backward by a preceding hyphen or forward by the next
non-whitespace character being a hyphen (leftmost-greedy regex semantics). -/
def tightenGo (prevHyphen : Bool) : List Char → List Char
  | [] => []
  | c :: rest =>
    if isJsWS c then
      if prevHyphen || ((rest.dropWhile isJsWS).head? == some '-') then
        tightenGo prevHyphen rest
      else c :: tightenGo false rest
    else if c = '-' then '-' :: tightenGo true rest
    else c :: tightenGo false rest

/-- The `name.replace(/\s*-\s*/g, "-")` step: a hyphen absorbs any adjacent
whitespace runs. -/
def tightenHyphens (l : List Char) : List Char :=
  tightenGo false l

/-- `normalizeName` from `scripts/pipeline.mjs`, on character lists:
uppercase, trim, collapse whitespace runs, `&`→`AND`, delete the
apostrophe-class characters, tighten whitespace around hyphens.
`CONFIG.NAME_OVERRIDES` is `{}` in the source, so the final override lookup
never fires and is omitted. -/
def normalizeChars (l : List Char) : List Char :=
  tightenHyphens (removeApos (replaceAmp (collapseWS (jsTrim (l.map jsUpperChar)))))

/-- `normalizeName` on strings (`safeStr` null-handling is outside the
string-valued model). -/
def normalizeName (s : String) : String :=
  ⟨normalizeChars s.data⟩

/-- Result of the JS `Number(string)` conversion: not-a-number, a signed
infinity, or a finite value.  Finite values are modelled as exact rationals;
IEEE-754 rounding of decimal literals is outside the model (truncation of the
exact value and of the rounded double agree on the integer-range data the
pipeline processes). -/
inductive JsNum where
  | nan : JsNum
  | inf : Bool → JsNum
  | val : ℚ → JsNum
  deriving DecidableEq

/-- Numeric value of a list of ASCII decimal digits. -/
def digitsToNat (l : List Char) : Nat :=
  l.foldl (fun a c => a * 10 + (c.toNat - 48)) 0

/-- Numeric value of digits in a given base, via a per-digit valuation. -/
def radixToNat (dv : Char → Nat) (l : List Char) (base : Nat) : Nat :=
  l.foldl (fun a c => a * base + dv c) 0

/-- Hex digit valuation. -/
def hexVal (c : Char) : Nat :=
  if c.isDigit then c.toNat - 48
  else if 'a' ≤ c && c ≤ 'f' then c.toNat - 87
  else c.toNat - 55

/-- `StrUnsignedDecimalLiteral` without `Infinity`: `digits [. digits] [exp]`
or `. digits [exp]`, returning the exact value as a scaled integer pair
`(mantissa, power10)` meaning `mantissa / 10^power10`.  `none` when the
characters do not form such a literal. -/
def parseDecimalBody (l : List Char) : Option (ℤ × ℕ) :=
  let ip := l.takeWhile Char.isDigit
  let r1 := l.dropWhile Char.isDigit
  let hasDot := r1.head? == some '.'
  let fpSrc := if hasDot then r1.tail else []
  let fp := fpSrc.takeWhile Char.isDigit
  let r2 := if hasDot then fpSrc.dropWhile Char.isDigit else r1
  if ip.isEmpty && fp.isEmpty then none
  else
    let mant : ℤ := Int.ofNat (digitsToNat ip * 10 ^ fp.length + digitsToNat fp)
    let frac : ℕ := fp.length
    match r2 with
    | [] => some (mant, frac)
    | e :: r3 =>
      if e = 'e' || e = 'E' then
        let (esign, ed) :=
          match r3 with
          | c :: r4 =>
            if c = '-' then (true, r4) else if c = '+' then (false, r4) else (false, r3)
          | [] => (false, r3)
        if ed.isEmpty || !ed.all Char.isDigit then none
        else
          let ev := digitsToNat ed
          if esign then some (mant, frac + ev)
          else some (mant * Int.ofNat (10 ^ ev), frac)
      else none

/-- `NonDecimalIntegerLiteral`: `0x`/`0X` hex, `0b`/`0B` binary, `0o`/`0O`
octal (sign not permitted by the grammar). -/
def parseNonDecimal (l : List Char) : Option ℕ :=
  match l with
  | '0' :: p :: ds =>
    if (p = 'x' || p = 'X') && !ds.isEmpty && ds.all (fun c => c.isDigit || ('a' ≤ c && c ≤ 'f') || ('A' ≤ c && c ≤ 'F')) then
      some (radixToNat hexVal ds 16)
    else if (p = 'b' || p = 'B') && !ds.isEmpty && ds.all (fun c => c = '0' || c = '1') then
      some (radixToNat hexVal ds 2)
    else if (p = 'o' || p = 'O') && !ds.isEmpty && ds.all (fun c => '0' ≤ c && c ≤ '7') then
      some (radixToNat hexVal ds 8)
    else none
  | _ => none

/-- The JS `Number(string)` conversion (`ToNumber` on strings): trim, empty
means `0`, then the `StringNumericLiteral` grammar — a non-decimal integer
literal, or an optional sign followed by `Infinity` or an unsigned decimal
literal; anything else is `NaN`. -/
def jsNumberOf (l : List Char) : JsNum :=
  let t := jsTrim l
  if t.isEmpty then .val 0
  else
    match parseNonDecimal t with
    | some n => .val (Rat.divInt (Int.ofNat n) 1)
    | none =>
      let (sgn, body) :=
        match t with
        | c :: rest =>
          if c = '-' then (true, rest) else if c = '+' then (false, rest) else (false, t)
        | [] => (false, t)
      if body = ("Infinity").data then .inf sgn
      else
        match parseDecimalBody body with
        | some (mant, frac) =>
          .val (Rat.divInt (if sgn then -mant else mant) (Int.ofNat (10 ^ frac)))
        | none => .nan

/-- `Math.trunc` on an exact rational: divide numerator by denominator,
rounding toward zero. -/
def ratTrunc (q : ℚ) : ℤ := Int.tdiv q.num (q.den : ℤ)

/-- The `safeStr(value).replace(/,/g, "").trim()` preprocessing of `toInt`. -/
def cleanedTok (s : String) : List Char :=
  jsTrim (s.data.filter (fun c => c ≠ ','))

/-- `toInt` from `scripts/pipeline.mjs`: strip commas, trim, `null` for empty
or non-finite `Number(...)` results, else truncate toward zero. -/
def toInt (s : String) : Option ℤ :=
  if (cleanedTok s).isEmpty then none
  else
    match jsNumberOf (cleanedTok s) with
    | .val q => some (ratTrunc q)
    | _ => none

/-- `parseAgeInt` from `scripts/pipeline.mjs`: trim, then `Number(value)` when
the value matches `/^\d+$/`, else `null`. -/
def parseAgeInt (ageRaw : String) : Option ℤ :=
  let value := jsTrim ageRaw.data
  if !value.isEmpty && value.all Char.isDigit then some (Int.ofNat (digitsToNat value))
  else none

/-- The fixed recognized age-bucket vocabulary `CONFIG.AGE_GROUPS`. -/
def AGE_GROUPS : List String :=
  ["ALL", "CHILD_0_6", "CHILD_7_12", "TEEN_13_18", "YOUNG_ADULT_19_34",
   "ADULT_35_54", "YOUNG_SENIOR_55_64", "SENIOR_65_PLUS"]

/-- The fixed recognized amenity category keys `CONFIG.AMENITY_CATEGORIES`. -/
def AMENITY_CATEGORIES : List String :=
  ["gp_clinics", "dental", "childcare_preschool", "primary_schools",
   "secondary_schools", "supermarkets", "eldercare"]

/-- `ageGroup` from `scripts/pipeline.mjs`: `null`/`undefined` and every age
not caught by the inclusive ranges fall through to the oldest bucket. -/
def ageGroup (ageInt : Option ℤ) : String :=
  match ageInt with
  | none => "SENIOR_65_PLUS"
  | some a =>
    if 0 ≤ a ∧ a ≤ 6 then "CHILD_0_6"
    else if 7 ≤ a ∧ a ≤ 12 then "CHILD_7_12"
    else if 13 ≤ a ∧ a ≤ 18 then "TEEN_13_18"
    else if 19 ≤ a ∧ a ≤ 34 then "YOUNG_ADULT_19_34"
    else if 35 ≤ a ∧ a ≤ 54 then "ADULT_35_54"
    else if 55 ≤ a ∧ a ≤ 64 then "YOUNG_SENIOR_55_64"
    else if 65 ≤ a then "SENIOR_65_PLUS"
    else "SENIOR_65_PLUS"

/-- JS `Map.prototype.get`, on an insertion-ordered association list. -/
def mapGet {κ α : Type} [DecidableEq κ] (m : List (κ × α)) (k : κ) : Option α :=
  (m.find? (fun p => decide (p.1 = k))).map (·.2)

/-- JS `Map.prototype.set`: overwrite in place when the key exists, else
append (JS maps preserve insertion order). -/
def mapSet {κ α : Type} [DecidableEq κ] (m : List (κ × α)) (k : κ) (v : α) : List (κ × α) :=
  if m.any (fun p => decide (p.1 = k)) then
    m.map (fun p => if p.1 = k then (k, v) else p)
  else m ++ [(k, v)]

/-- `addToMap` from `scripts/pipeline.mjs`:
`map.set(key, (map.get(key) || 0) + value)` (for an integer-valued map the
`|| 0` only substitutes for a missing entry, since `0 || 0` is `0`). -/
def addToMap {κ : Type} [DecidableEq κ] (m : List (κ × ℤ)) (k : κ) (v : ℤ) : List (κ × ℤ) :=
  mapSet m k ((mapGet m k).getD 0 + v)

/-- Sum of the values of an association-list map. -/
def mapValuesSum {κ : Type} (m : List (κ × ℤ)) : ℤ :=
  (m.map (·.2)).sum

/-- One validated resident record as produced by `parseResidentCsv`. -/
structure ResidentRow where
  year : ℤ
  pa : String
  sz : String
  sex : String
  ageRaw : String
  ageInt : Option ℤ
  pop : ℤ
  deriving DecidableEq

/-- `String.prototype.toUpperCase` on strings (ASCII model, see
`jsUpperChar`). -/
def jsUpperStr (s : String) : String := ⟨s.data.map jsUpperChar⟩

/-- `String.prototype.trim` on strings. -/
def jsTrimStr (s : String) : String := ⟨jsTrim s.data⟩

/-- `normalizeHeader` from `scripts/pipeline.mjs`: uppercase, then delete
every character outside `A`–`Z`, `0`–`9`. -/
def normalizeHeader (s : String) : String :=
  ⟨(s.data.map jsUpperChar).filter (fun c => ('A' ≤ c && c ≤ 'Z') || ('0' ≤ c && c ≤ '9'))⟩

/-- Is `needle` a prefix of `hay` (JS `String.prototype.startsWith`)? -/
def charsPrefixOf : List Char → List Char → Bool
  | [], _ => true
  | _ :: _, [] => false
  | a :: as, b :: bs => a = b && charsPrefixOf as bs

/-- Does `hay` contain `needle` (JS `String.prototype.includes`)? -/
def charsContain (needle : List Char) : List Char → Bool
  | [] => needle.isEmpty
  | b :: bs => charsPrefixOf needle (b :: bs) || charsContain needle bs

/-- First index of an exact candidate match, scanning candidates in order
(the first loop of `findCol`: `headerNorm.indexOf(candidate)`). -/
def findColExact (headerNorm : List String) : List String → Option ℕ
  | [] => none
  | c :: cs =>
    match headerNorm.findIdx? (fun h => decide (h = c)) with
    | some i => some i
    | none => findColExact headerNorm cs

/-- `findCol` from `scripts/pipeline.mjs`: exact candidate match first, then
the first header cell containing any candidate as a substring, else `-1`. -/
def findCol (headerNorm : List String) (candidates : List String) : ℤ :=
  match findColExact headerNorm candidates with
  | some i => Int.ofNat i
  | none =>
    match headerNorm.findIdx? (fun h => candidates.any (fun c => charsContain c.data h.data)) with
    | some i => Int.ofNat i
    | none => -1

/-- Resolved column indices of the resident CSV header. -/
structure ParseCols where
  pa : ℤ
  sz : ℤ
  age : ℤ
  sex : ℤ
  pop : ℤ
  time : ℤ
  deriving DecidableEq

/-- JS `row[i]` followed by `safeStr`: out-of-range (or negative) access
yields `undefined`, which `safeStr` turns into the empty string. -/
def getCell (row : List String) (idx : ℤ) : String :=
  if 0 ≤ idx then (row.get? idx.toNat).getD "" else ""

/-- The year value a row of `parseResidentCsv` sees:
`col.time >= 0 ? toInt(row[col.time]) : defaultYear`. -/
def rowYear (col : ParseCols) (defaultYear : ℤ) (row : List String) : Option ℤ :=
  if 0 ≤ col.time then toInt (getCell row col.time) else some defaultYear

/-- One iteration of the row loop of `parseResidentCsv` (source lines
347–365): empty rows are skipped outright; a row is dropped — incrementing
the single `dropped` counter — when the normalized region names are blank,
the year is `null` or `0` (JS `!year` truthiness), or the population is
`null` or negative; otherwise a `ResidentRow` is emitted. -/
def parseRowStep (col : ParseCols) (defaultYear : ℤ) (row : List String)
    (acc : List ResidentRow × ℕ) : List ResidentRow × ℕ :=
  if row.isEmpty then acc
  else
    match rowYear col defaultYear row, toInt (getCell row col.pop) with
    | some y, some p =>
      if normalizeName (getCell row col.pa) = "" || normalizeName (getCell row col.sz) = "" ||
          y = 0 || p < 0 then (acc.1, acc.2 + 1)
      else
        (⟨y, normalizeName (getCell row col.pa), normalizeName (getCell row col.sz),
          jsTrimStr (jsUpperStr (getCell row col.sex)), jsTrimStr (getCell row col.age),
          parseAgeInt (jsTrimStr (getCell row col.age)), p⟩ :: acc.1, acc.2)
    | _, _ => (acc.1, acc.2 + 1)

/-- The row loop of `parseResidentCsv`, as a right fold (the source pushes
rows in order; the fold prepends the current row's record to the already
processed suffix, preserving that order). -/
def parseRowsGo (col : ParseCols) (defaultYear : ℤ) (rows : List (List String)) :
    List ResidentRow × ℕ :=
  rows.foldr (parseRowStep col defaultYear) ([], 0)

/-- Column resolution of `parseResidentCsv`. -/
def residentCols (header : List String) : ParseCols :=
  { pa := findCol header ["PA", "PLANNINGAREA"]
    sz := findCol header ["SZ", "SUBZONE"]
    age := findCol header ["AGE", "SINGLEYEAROFAGE"]
    sex := findCol header ["SEX", "GENDER"]
    pop := findCol header ["POP", "POPULATION"]
    time := findCol header ["TIME", "YEAR"] }

/-- `parseResidentCsv` from `scripts/pipeline.mjs`.  The external CSV parse
(`csv-parse`) is modelled by taking the already-split rows as input; thrown
errors become `Except.error`. -/
def colsBad (col : ParseCols) : Bool :=
  col.pa < 0 || col.sz < 0 || col.age < 0 || col.sex < 0 || col.pop < 0

def parseResidentCsv (rows : List (List String)) (defaultYear : ℤ) :
    Except String (List ResidentRow × ℕ) :=
  if rows.length < 2 then .error "Resident CSV appears empty."
  else if colsBad (residentCols ((rows.headD []).map normalizeHeader)) then
    .error "Resident CSV header missing required columns (PA,SZ,Age,Sex,Pop[,Time])."
  else .ok (parseRowsGo (residentCols ((rows.headD []).map normalizeHeader)) defaultYear rows.tail)

/-- One published planning-area denominator row. -/
structure PaRow where
  year : ℤ
  pa : String
  age_group : String
  residents : ℤ
  deriving DecidableEq

/-- One published subzone denominator row. -/
structure SzRow where
  year : ℤ
  pa : String
  sz : String
  age_group : String
  residents : ℤ
  deriving DecidableEq

/-- The accumulation loop of `buildDenoms` (source lines 371–384): every row
of the target vintage adds its population to its age bucket and to `ALL`, in
both the planning-area map and the subzone map.  The JS composite string keys
`` `${pa}||${group}` `` are modelled as tuples (`split("||")` recovers the
components; region and bucket names contain no `||`). -/
def buildDenomsMaps (rows : List ResidentRow) (year : ℤ) :
    List ((String × String) × ℤ) × List ((String × String × String) × ℤ) :=
  rows.foldl
    (fun acc row =>
      if row.year ≠ year then acc
      else
        let group := ageGroup row.ageInt
        (addToMap (addToMap acc.1 (row.pa, group) row.pop) (row.pa, "ALL") row.pop,
         addToMap (addToMap acc.2 (row.pa, row.sz, group) row.pop) (row.pa, row.sz, "ALL") row.pop))
    ([], [])

/-- Insert into a sorted list, before the first element that does not
precede it. -/
def sortInsert {α : Type} (le : α → α → Bool) (a : α) : List α → List α
  | [] => [a]
  | b :: bs => if le a b then a :: b :: bs else b :: sortInsert le a bs

/-- JS `Array.prototype.sort(comparator)`, modelled as a stable insertion sort
by the comparator-induced precedence (the ECMAScript specification fixes only
that the result is sorted and, since ES2019, stable). -/
def jsSort {α : Type} (le : α → α → Bool) : List α → List α
  | [] => []
  | a :: as => sortInsert le a (jsSort le as)

/-- Lexicographic code-point comparison of character lists. -/
def charsLt : List Char → List Char → Bool
  | [], [] => false
  | [], _ :: _ => true
  | _ :: _, [] => false
  | a :: as, b :: bs => a.toNat < b.toNat || (a = b && charsLt as bs)

/-- String comparison used to model `localeCompare` sort precedences: the
default-locale collation is modelled as code-point order (every name being
sorted is ASCII upper-case, where the two agree). -/
def strLt (a b : String) : Bool := charsLt a.data b.data

/-- The `(a, b) => a.pa.localeCompare(b.pa) || a.age_group.localeCompare(...)`
comparator of `completePaGroups`, as a sort precedence. -/
def paRowLE (a b : PaRow) : Bool :=
  if a.pa = b.pa then !strLt b.age_group a.age_group else strLt a.pa b.pa

/-- Subzone analogue of `paRowLE` (comparator of `completeSzGroups`). -/
def szRowLE (a b : SzRow) : Bool :=
  if a.pa = b.pa then
    if a.sz = b.sz then !strLt b.age_group a.age_group else strLt a.sz b.sz
  else strLt a.pa b.pa

/-- `completePaGroups` from `scripts/pipeline.mjs`: group the accumulated rows
by planning area, then emit one row per recognized age bucket for every
planning area present, zero-filled, sorted. -/
def completePaGroups (rows : List PaRow) (year : ℤ) : List PaRow :=
  let byPa : List (String × List (String × ℤ)) :=
    rows.foldl
      (fun m row => mapSet m row.pa (mapSet ((mapGet m row.pa).getD []) row.age_group row.residents))
      []
  let out := byPa.flatMap
    (fun g => AGE_GROUPS.map (fun name => PaRow.mk year g.1 name ((mapGet g.2 name).getD 0)))
  jsSort paRowLE out

/-- `completeSzGroups` from `scripts/pipeline.mjs` (keyed by the
planning-area/subzone pair). -/
def completeSzGroups (rows : List SzRow) (year : ℤ) : List SzRow :=
  let bySz : List ((String × String) × List (String × ℤ)) :=
    rows.foldl
      (fun m row =>
        mapSet m (row.pa, row.sz)
          (mapSet ((mapGet m (row.pa, row.sz)).getD []) row.age_group row.residents))
      []
  let out := bySz.flatMap
    (fun g => AGE_GROUPS.map (fun name => SzRow.mk year g.1.1 g.1.2 name ((mapGet g.2 name).getD 0)))
  jsSort szRowLE out

/-- `buildDenoms` from `scripts/pipeline.mjs`: accumulate, then complete and
sort both granularities. -/
def buildDenoms (rows : List ResidentRow) (year : ℤ) : List PaRow × List SzRow :=
  let maps := buildDenomsMaps rows year
  let paRows := maps.1.map (fun p => PaRow.mk year p.1.1 p.1.2 p.2)
  let szRows := maps.2.map (fun p => SzRow.mk year p.1.1 p.1.2.1 p.1.2.2 p.2)
  (completePaGroups paRows year, completeSzGroups szRows year)

/-- Shorthand for integer-valued rationals in concrete inputs. -/
def qInt (n : ℤ) : ℚ := Rat.divInt n 1

/-- Axis-aligned bounding box `[minLon, minLat, maxLon, maxLat]` of a
polygon record. -/
structure BBox where
  minLon : ℚ
  minLat : ℚ
  maxLon : ℚ
  maxLat : ℚ
  deriving DecidableEq

/-- One record of `normalizeSubzonePolygons`: optional planning-area name
(`null` when no candidate property resolves), subzone name, bounding box,
multi-polygon coordinates.  Coordinates are exact rationals standing for the
JS doubles. -/
structure SubzonePolygon where
  pa_name : Option String
  sz_name : String
  bbox : BBox
  multipoly : List (List (List (ℚ × ℚ)))

/-- `bboxContains` from `scripts/pipeline.mjs`. -/
def bboxContains (bbox : BBox) (lon lat : ℚ) : Bool :=
  decide (bbox.minLon ≤ lon) && decide (lon ≤ bbox.maxLon) &&
  decide (bbox.minLat ≤ lat) && decide (lat ≤ bbox.maxLat)

/-- The `(yj - yi) || 1e-15` fallback denominator, modelled as the exact
rational `10⁻¹⁵`.  It is only ever reached when `yj - yi = 0`, and then the
edge's crossing test is already false (`yi > lat` and `yj > lat` agree), so
its exact value never influences the result. -/
def epsDenom : ℚ := Rat.divInt 1 (10 ^ 15)

/-- Edge list of `pointInRing`'s index pairing `j = i-1` (with `j` starting
at the last index): each vertex paired with its predecessor, cyclically. -/
def ringEdges (ring : List (ℚ × ℚ)) : List ((ℚ × ℚ) × (ℚ × ℚ)) :=
  match ring.getLast? with
  | none => []
  | some z => ring.zip (z :: ring.dropLast)

/-- `pointInRing` from `scripts/pipeline.mjs`: even–odd ray casting over the
cyclic edge list. -/
def pointInRing (lon lat : ℚ) (ring : List (ℚ × ℚ)) : Bool :=
  (ringEdges ring).foldl
    (fun inside e =>
      let xi := e.1.1
      let yi := e.1.2
      let xj := e.2.1
      let yj := e.2.2
      let denom := if yj - yi = 0 then epsDenom else yj - yi
      let intersects :=
        (decide (yi > lat) != decide (yj > lat)) &&
        decide (lon < (xj - xi) * (lat - yi) / denom + xi)
      if intersects then !inside else inside)
    false

/-- `pointInPolygonRings` from `scripts/pipeline.mjs`: inside the outer ring
and inside no hole ring; an empty ring list contains nothing. -/
def pointInPolygonRings (lon lat : ℚ) (rings : List (List (ℚ × ℚ))) : Bool :=
  match rings with
  | [] => false
  | outer :: holes => pointInRing lon lat outer && holes.all (fun h => !pointInRing lon lat h)

/-- `pointInMultiPolygon` from `scripts/pipeline.mjs`. -/
def pointInMultiPolygon (lon lat : ℚ) (multipoly : List (List (List (ℚ × ℚ)))) : Bool :=
  multipoly.any (fun rings => pointInPolygonRings lon lat rings)

/-- `findContainingSubzone` from `scripts/pipeline.mjs`: first polygon (in
input feature order) passing the bbox test and the multi-polygon test. -/
def findContainingSubzone (lon lat : ℚ) (polygons : List SubzonePolygon) :
    Option (Option String × String) :=
  match polygons.find? (fun poly =>
      bboxContains poly.bbox lon lat && pointInMultiPolygon lon lat poly.multipoly) with
  | some poly => some (poly.pa_name, poly.sz_name)
  | none => none

/-- Mutable per-category accumulation state of the point-assignment loop of
`buildAmenitySnapshot` (source lines 529–595).  The bounded debug sample
(`sampleAssigned`, diagnostics only) is not modelled. -/
structure AmenState where
  szCount : List ((String × String × String) × ℤ)
  paCount : List ((String × String) × ℤ)
  assigned : ℕ
  unassigned : ℕ
  deriving DecidableEq

/-- The `normalizeName(match.pa || "UNKNOWN")` fallback: a `null` or blank
planning-area name becomes the literal `"UNKNOWN"`. -/
def paOf (o : Option String) : String :=
  normalizeName (match o with
    | some s => if s = "" then "UNKNOWN" else s
    | none => "UNKNOWN")

/-- The body of the per-point loop of `buildAmenitySnapshot`: no containing
subzone (or a blank subzone name) increments `unassigned`; a match is counted
in both accumulators, with an unresolved (or blank) planning-area name
replaced by `"UNKNOWN"`.  Points are modelled with exact rational (hence
finite) coordinates, so the `Number.isFinite` guard — whose failure also
increments `unassigned` — is vacuous here. -/
def assignPoint (polygons : List SubzonePolygon) (category : String) (st : AmenState)
    (lon lat : ℚ) : AmenState :=
  match findContainingSubzone lon lat polygons with
  | none => { st with unassigned := st.unassigned + 1 }
  | some m =>
    if m.2 = "" then { st with unassigned := st.unassigned + 1 }
    else
      { st with
        szCount := addToMap st.szCount (paOf m.1, normalizeName m.2, category) 1
        paCount := addToMap st.paCount (paOf m.1, category) 1
        assigned := st.assigned + 1 }

/-- The per-category point loop of `buildAmenitySnapshot`. -/
def assignPoints (polygons : List SubzonePolygon) (category : String)
    (points : List (ℚ × ℚ)) (st : AmenState) : AmenState :=
  points.foldl (fun s p => assignPoint polygons category s p.1 p.2) st

/-- One row of the published fine-grained amenity artifact. -/
structure AmenSzRow where
  snapshot : String
  pa : String
  sz : String
  category : String
  count : ℤ
  deriving DecidableEq

/-- One row of the published coarse-grained amenity artifact. -/
structure AmenPaRow where
  snapshot : String
  pa : String
  category : String
  count : ℤ
  deriving DecidableEq

/-- Comparator of the fine-grained amenity rows (source lines 603–607). -/
def amenSzRowLE (a b : AmenSzRow) : Bool :=
  if a.pa = b.pa then
    if a.sz = b.sz then !strLt b.category a.category else strLt a.sz b.sz
  else strLt a.pa b.pa

/-- Comparator of the coarse-grained amenity rows (source lines 614–617). -/
def amenPaRowLE (a b : AmenPaRow) : Bool :=
  if a.pa = b.pa then !strLt b.category a.category else strLt a.pa b.pa

/-- The `szOut` construction of `buildAmenitySnapshot` (source lines
598–607): one row per accumulated key, sorted — with no completion against
the category vocabulary. -/
def buildAmenSzRows (snapshot : String) (szCount : List ((String × String × String) × ℤ)) :
    List AmenSzRow :=
  jsSort amenSzRowLE (szCount.map (fun p => AmenSzRow.mk snapshot p.1.1 p.1.2.1 p.1.2.2 p.2))

/-- The `paOut` construction of `buildAmenitySnapshot` (source lines
609–617). -/
def buildAmenPaRows (snapshot : String) (paCount : List ((String × String) × ℤ)) :
    List AmenPaRow :=
  jsSort amenPaRowLE (paCount.map (fun p => AmenPaRow.mk snapshot p.1.1 p.1.2 p.2))

/-- The amenities manifest, as read by `runAmenityTests` (metadata fields not
needed by the checks are omitted). -/
structure AmenIndex where
  snapshots : List String
  categories : List String
  deriving DecidableEq

/-- `runAmenityTests` from `scripts/pipeline.mjs`: fail when any of the three
read artifacts is missing; otherwise sum `count` over the fine-grained rows
whose `category` is `"supermarkets"` and fail iff that total exceeds 5000.
No other category is examined. -/
def runAmenityTestsCheck (index : Option AmenIndex) (sz : Option (List AmenSzRow))
    (pa : Option (List AmenPaRow)) : Except String Unit :=
  match index, sz, pa with
  | some _, some szRows, some _ =>
    let totalSupermarkets := ((szRows.filter (fun r => decide (r.category = "supermarkets"))).map (·.count)).sum
    if totalSupermarkets > 5000 then .error "Amenity sanity check failed: supermarkets total"
    else .ok ()
  | _, _, _ => .error "Amenity test failed. Missing snapshot outputs."

/-- JS `Set.prototype.add`: append iff absent (sets preserve insertion
order). -/
def jsSetAdd {α : Type} [DecidableEq α] (l : List α) (a : α) : List α :=
  if a ∈ l then l else l ++ [a]

/-- `new Set(array)`: deduplicate keeping first occurrences. -/
def jsSetOfList {α : Type} [DecidableEq α] (l : List α) : List α :=
  l.foldl jsSetAdd []

/-- Numeric value of a `Number(...)` result, for the snapshot comparator.  A
`NaN`/infinite component is collapsed to `0`; for identifiers matching the
validated `/^\d{4}Q[1-4]$/` shape both components are plain finite numbers
and the model is exact (elsewhere only tie order can deviate, which no
theorem below depends on). -/
def snapNum (l : List Char) : ℚ :=
  match jsNumberOf l with
  | .val q => q
  | _ => 0

/-- `compareSnapshotQuarter` from `scripts/pipeline.mjs`: numeric year from
the first four characters, quarter from character index 5 on. -/
def compareSnapshotQuarter (a b : String) : ℚ :=
  let ay := snapNum (a.data.take 4)
  let yb := snapNum (b.data.take 4)
  if ay ≠ yb then ay - yb
  else snapNum (a.data.drop 5) - snapNum (b.data.drop 5)

/-- The comparator-induced sort precedence for snapshot identifiers. -/
def snapLE (a b : String) : Bool := decide (compareSnapshotQuarter a b ≤ 0)

/-- The manifest update of `buildAmenitySnapshot` (source lines 628–633):
read snapshots into a set, add the new snapshot, sort. -/
def updateAmenSnapshots (snapshots : List String) (snap : String) : List String :=
  jsSort snapLE (jsSetAdd (jsSetOfList snapshots) snap)

/-- The manifest update of `updateDenominators` (source lines 172–215): read
vintages into a set (the `.map(Number)` is the identity on the stored
numbers), add every processed year, sort numerically. -/
def updateDenomVintages (vintages : List ℤ) (years : List ℤ) : List ℤ :=
  jsSort (fun a b => decide (a ≤ b)) (years.foldl jsSetAdd (jsSetOfList vintages))

/-- A geocoder result. -/
structure GeoPoint where
  lat : ℚ
  lon : ℚ
  deriving DecidableEq

/-- The cache read `geocodeCache[cacheKey] || null` of
`buildSchoolPointsFromMoe`: an absent key and a stored `null` (negative
result) are both falsy, hence both behave as a miss. -/
def cacheLookup (cache : List (String × Option GeoPoint)) (k : String) : Option GeoPoint :=
  match mapGet cache k with
  | some (some g) => some g
  | _ => none

/-- The per-row geocode-cache interaction of `buildSchoolPointsFromMoe`
(source lines 823–830): look up the normalized search string; on a miss call
the network geocoder (`net` abstracts `geocodeOneMap`) and store its result —
positive or `null` — under the key.  Returns the geocode used, whether a
network call was issued, and the new cache. -/
def geocodeStep (cache : List (String × Option GeoPoint)) (net : String → Option GeoPoint)
    (searchVal : String) : Option GeoPoint × Bool × List (String × Option GeoPoint) :=
  let cacheKey := normalizeName searchVal
  match cacheLookup cache cacheKey with
  | some g => (some g, false, cache)
  | none =>
    let geocode := net searchVal
    (geocode, true, mapSet cache cacheKey geocode)

/-- A unit square with vertices at `(0,0)` and `(10,10)`, used as a concrete
boundary below. -/
def squareRing : List (ℚ × ℚ) :=
  [(qInt 0, qInt 0), (qInt 10, qInt 0), (qInt 10, qInt 10), (qInt 0, qInt 10), (qInt 0, qInt 0)]

/-- A subzone polygon over `squareRing` whose planning-area name is
unresolved (`null`). -/
def squareNoPa : SubzonePolygon :=
  ⟨none, "S", ⟨qInt 0, qInt 0, qInt 10, qInt 10⟩, [[squareRing]]⟩

/-- Keys of an association-list map are pairwise distinct. -/
def keysNodup {κ α : Type} (m : List (κ × α)) : Prop :=
  (m.map Prod.fst).Nodup

/-- Does a (non-empty) data row fail `parseResidentCsv` validation?  Mirrors
the `!pa || !sz || !year || pop === null || pop < 0` test. -/
def rowFails (col : ParseCols) (defaultYear : ℤ) (row : List String) : Bool :=
  match rowYear col defaultYear row, toInt (getCell row col.pop) with
  | some y, some p =>
    decide (normalizeName (getCell row col.pa) = "") ||
    decide (normalizeName (getCell row col.sz) = "") || decide (y = 0) || decide (p < 0)
  | _, _ => true

/-- The record a passing data row contributes. -/
def rowRecord (col : ParseCols) (defaultYear : ℤ) (row : List String) : Option ResidentRow :=
  match rowYear col defaultYear row, toInt (getCell row col.pop) with
  | some y, some p =>
    if normalizeName (getCell row col.pa) = "" || normalizeName (getCell row col.sz) = "" ||
        y = 0 || p < 0 then none
    else
      some ⟨y, normalizeName (getCell row col.pa), normalizeName (getCell row col.sz),
        jsTrimStr (jsUpperStr (getCell row col.sex)), jsTrimStr (getCell row col.age),
        parseAgeInt (jsTrimStr (getCell row col.age)), p⟩
  | _, _ => none

/-- A two-line resident CSV whose data row carries `tok` in the `Pop`
column. -/
def csvWith (tok : String) : List (List String) :=
  [["PA", "SZ", "Age", "Sex", "Pop", "Time"], ["A", "B", "5", "F", tok, "2024"]]

/-- Population total of the rows of a vintage. -/
def popSum (rows : List ResidentRow) (year : ℤ) : ℤ :=
  ((rows.filter (fun r => decide (r.year = year))).map (fun r => r.pop)).sum

/-- Is the first character JS whitespace? -/
def headWS (l : List Char) : Bool :=
  (l.head?.map isJsWS).getD false

/-- Is the last character JS whitespace? -/
def lastWS (l : List Char) : Bool :=
  (l.getLast?.map isJsWS).getD false

/-- Every JS-whitespace character is a plain space and is followed by a
non-whitespace character (the shape `replace(/\\s+/g, " ")` guarantees). -/
def spacedOK : List Char → Bool
  | [] => true
  | [c] => !isJsWS c || c = ' '
  | c :: d :: rest => ((!isJsWS c) || (c = ' ' && !isJsWS d)) && spacedOK (d :: rest)

/-- No whitespace character is adjacent to a hyphen. -/
def noWsHyphen : List Char → Bool
  | [] => true
  | [_] => true
  | c :: d :: rest =>
    !(isJsWS c && decide (d = '-')) && !(decide (c = '-') && isJsWS d) && noWsHyphen (d :: rest)

/-! Concrete sanity evaluations of the executable model. -/

example : toInt "12.7" = some 12 := by decide

example : toInt "1,234" = some 1234 := by decide

example : toInt "-5" = some (-5) := by decide

example : toInt "-0.5" = some 0 := by decide

example : toInt "" = none := by decide

example : toInt "abc" = none := by decide

example : toInt "Infinity" = none := by decide

example : toInt "0x1A" = some 26 := by decide

example : toInt "1e3" = some 1000 := by decide

example : toInt "1.5e-1" = some 0 := by decide

example : parseAgeInt "5" = some 5 := by decide

example : parseAgeInt "90+" = none := by decide

example : ageGroup (parseAgeInt "5") = "CHILD_0_6" := by decide

example : ageGroup (parseAgeInt "70") = "SENIOR_65_PLUS" := by decide

example : ageGroup (parseAgeInt "90+") = "SENIOR_65_PLUS" := by decide

example :
    (buildDenoms
      [⟨2024, "A", "A1", "F", "5", parseAgeInt "5", 100⟩,
       ⟨2024, "A", "A1", "F", "70", parseAgeInt "70", 50⟩] 2024).1 =
    [⟨2024, "A", "ADULT_35_54", 0⟩, ⟨2024, "A", "ALL", 150⟩,
     ⟨2024, "A", "CHILD_0_6", 100⟩, ⟨2024, "A", "CHILD_7_12", 0⟩,
     ⟨2024, "A", "SENIOR_65_PLUS", 50⟩, ⟨2024, "A", "TEEN_13_18", 0⟩,
     ⟨2024, "A", "YOUNG_ADULT_19_34", 0⟩, ⟨2024, "A", "YOUNG_SENIOR_55_64", 0⟩] := by
  decide

example : pointInRing (qInt 5) (qInt 5) squareRing = true := by with_unfolding_all rfl

example : pointInRing (qInt 15) (qInt 5) squareRing = false := by with_unfolding_all rfl

example : findContainingSubzone (qInt 5) (qInt 5) [squareNoPa] = some (none, "S") := by
  with_unfolding_all rfl

example :
    assignPoint [squareNoPa] "gp_clinics" ⟨[], [], 0, 0⟩ (qInt 5) (qInt 5) =
      ⟨[(("UNKNOWN", "S", "gp_clinics"), 1)], [(("UNKNOWN", "gp_clinics"), 1)], 1, 0⟩ := by
  with_unfolding_all rfl

example :
    assignPoint [squareNoPa] "gp_clinics" ⟨[], [], 0, 0⟩ (qInt 50) (qInt 5) =
      ⟨[], [], 0, 1⟩ := by with_unfolding_all rfl

example : updateAmenSnapshots ["2024Q1", "2023Q4"] "2024Q1" = ["2023Q4", "2024Q1"] := by
  with_unfolding_all rfl

example : updateDenomVintages [2023, 2024] [2024] = [2023, 2024] := by decide

example : normalizeName "Bukit Merah" = "BUKIT MERAH" := by decide

example : normalizeName " BUKIT   MERAH " = "BUKIT MERAH" := by decide

example : normalizeName "bukit-merah" = "BUKIT-MERAH" := by decide

example : normalizeName ⟨[aposQuote, ' ', 'A']⟩ = " A" := by decide

example : normalizeName " A" = "A" := by decide

example :
    normalizeName ⟨['s','t','.',' ','j','o','h','n',aposQuote,'s',' ','&',' ','c','o',' ','-',' ','x']⟩ =
      "ST. JOHNS AND CO-X" := by decide

/-! Basic properties of the sort and set models. -/

theorem sortInsert_perm {α : Type} (le : α → α → Bool) (a : α) (l : List α) :
    (sortInsert le a l).Perm (a :: l) := by
  induction l with
  | nil => simp [sortInsert]
  | cons b bs ih =>
    simp only [sortInsert]
    split
    · exact List.Perm.refl _
    · exact ((ih.cons b).trans (List.Perm.swap a b bs))

theorem jsSort_perm {α : Type} (le : α → α → Bool) (l : List α) : (jsSort le l).Perm l := by
  induction l with
  | nil => simp [jsSort]
  | cons a as ih => exact (sortInsert_perm le a (jsSort le as)).trans (ih.cons a)

theorem mem_jsSetAdd {α : Type} [DecidableEq α] {l : List α} {a x : α} :
    x ∈ jsSetAdd l a ↔ x ∈ l ∨ x = a := by
  unfold jsSetAdd
  split
  · rename_i h
    constructor
    · exact Or.inl
    · rintro (hx | rfl)
      · exact hx
      · exact h
  · simp

theorem jsSetAdd_nodup {α : Type} [DecidableEq α] {l : List α} (h : l.Nodup) (a : α) :
    (jsSetAdd l a).Nodup := by
  unfold jsSetAdd
  split
  · exact h
  · rename_i hna
    simpa [List.nodup_append] using ⟨h, fun hx => hna hx⟩

theorem jsSetAdd_eq_of_mem {α : Type} [DecidableEq α] {l : List α} {a : α} (h : a ∈ l) :
    jsSetAdd l a = l := by
  simp [jsSetAdd, h]

theorem foldl_jsSetAdd_nodup {α : Type} [DecidableEq α] (l : List α) :
    ∀ init : List α, init.Nodup → (l.foldl jsSetAdd init).Nodup := by
  induction l with
  | nil => intro init h; simpa using h
  | cons a as ih =>
    intro init h
    exact ih (jsSetAdd init a) (jsSetAdd_nodup h a)

theorem mem_foldl_jsSetAdd {α : Type} [DecidableEq α] (l : List α) :
    ∀ (init : List α) (x : α), x ∈ l.foldl jsSetAdd init ↔ x ∈ init ∨ x ∈ l := by
  induction l with
  | nil => intro init x; simp
  | cons a as ih =>
    intro init x
    simp only [List.foldl_cons, ih, mem_jsSetAdd, List.mem_cons]
    tauto

theorem jsSetOfList_nodup {α : Type} [DecidableEq α] (l : List α) : (jsSetOfList l).Nodup :=
  foldl_jsSetAdd_nodup l [] List.nodup_nil

theorem mem_jsSetOfList {α : Type} [DecidableEq α] (l : List α) (x : α) :
    x ∈ jsSetOfList l ↔ x ∈ l := by
  simpa using mem_foldl_jsSetAdd l [] x

theorem mapSet_keys_of_mem {κ α : Type} [DecidableEq κ] {m : List (κ × α)} {k : κ} {v : α}
    (h : m.any (fun p => decide (p.1 = k)) = true) :
    (mapSet m k v).map Prod.fst = m.map Prod.fst := by
  unfold mapSet
  rw [if_pos h, List.map_map]
  apply List.map_congr_left
  intro p hp
  by_cases hpk : p.1 = k
  · simp [hpk, Function.comp]
  · simp [hpk, Function.comp]

theorem mapSet_keysNodup {κ α : Type} [DecidableEq κ] {m : List (κ × α)} (h : keysNodup m)
    (k : κ) (v : α) : keysNodup (mapSet m k v) := by
  unfold mapSet
  split
  · rename_i hin
    have := mapSet_keys_of_mem (m := m) (k := k) (v := v) hin
    unfold mapSet at this
    rw [if_pos hin] at this
    unfold keysNodup
    rw [this]
    exact h
  · rename_i hout
    unfold keysNodup
    rw [List.map_append]
    simp only [List.map_cons, List.map_nil]
    rw [List.nodup_append]
    refine ⟨h, by simp, ?_⟩
    intro x hx
    simp only [List.mem_singleton]
    intro hxk
    subst hxk
    apply hout
    simp only [List.any_eq_true]
    obtain ⟨p, hp, hpk⟩ := List.mem_map.mp hx
    exact ⟨p, hp, by simp [hpk]⟩

theorem addToMap_keysNodup {κ : Type} [DecidableEq κ] {m : List (κ × ℤ)} (h : keysNodup m)
    (k : κ) (v : ℤ) : keysNodup (addToMap m k v) :=
  mapSet_keysNodup h k _

/-- Claim C4 (counterexample): the three inputs are claimed to normalize to a
common string, but the hyphenated form keeps its hyphen: `normalizeName`
never replaces punctuation by a space. -/
theorem c4_counterexample :
    normalizeName "Bukit Merah" = "BUKIT MERAH" ∧
    normalizeName "bukit-merah" = "BUKIT-MERAH" ∧
    normalizeName "bukit-merah" ≠ normalizeName "Bukit Merah" := by
  decide

/-- Claim C4 (amended): `normalizeName` identifies `"Bukit Merah"` and
`" BUKIT   MERAH "` (case, edge whitespace and inner whitespace runs are
normalized), but `"bukit-merah"` maps to `"BUKIT-MERAH"`: punctuation is not
replaced by a space — instead whitespace around a hyphen is deleted, as the
last conjunct shows. -/
theorem c4_normalize_examples :
    normalizeName "Bukit Merah" = normalizeName " BUKIT   MERAH " ∧
    normalizeName " BUKIT   MERAH " = "BUKIT MERAH" ∧
    normalizeName "bukit-merah" = "BUKIT-MERAH" ∧
    normalizeName "bukit - merah" = "BUKIT-MERAH" := by
  decide

/-- Claim C8 (counterexample): a stored snapshot whose `gp_clinics` total is
6000 — far above the 5000 bound — passes `runAmenityTests`, because only the
`supermarkets` category is ever summed. -/
theorem c8_counterexample :
    runAmenityTestsCheck (some ⟨["2024Q1"], AMENITY_CATEGORIES⟩)
        (some [AmenSzRow.mk "2024Q1" "A" "A1" "gp_clinics" 6000]) (some []) = .ok () ∧
    (([AmenSzRow.mk "2024Q1" "A" "A1" "gp_clinics" 6000].filter
        (fun r => decide (r.category = "gp_clinics"))).map (fun r => r.count)).sum = 6000 :=
  ⟨rfl, by decide⟩

/-- Claim C8 (amended): with all three artifacts present, `runAmenityTests`
aborts exactly when the `supermarkets` total of the stored fine-grained rows
exceeds 5000; no other category is checked. -/
theorem c8_supermarkets_only (idx : AmenIndex) (szRows : List AmenSzRow)
    (paRows : List AmenPaRow) :
    runAmenityTestsCheck (some idx) (some szRows) (some paRows) = .ok () ↔
      ((szRows.filter (fun r => decide (r.category = "supermarkets"))).map
        (fun r => r.count)).sum ≤ 5000 := by
  simp only [runAmenityTestsCheck]
  split
  · rename_i h
    constructor
    · intro hok
      exact absurd hok (by simp)
    · intro hle
      exact absurd h (by omega)
  · rename_i h
    exact ⟨fun _ => by omega, fun _ => rfl⟩

/-- Claim C9 (counterexample): a cache holding a negative (no-result) entry
for the key still triggers a network geocode call — the lookup
`geocodeCache[cacheKey] || null` treats the stored `null` as a miss. -/
theorem c9_counterexample :
    mapGet [("K", (none : Option GeoPoint))] (normalizeName "K") = some none ∧
    (geocodeStep [("K", (none : Option GeoPoint))] (fun _ => none) "K").2.1 = true := by
  decide

/-- Claim C9 (amended): only a positive (coordinate) cache entry suppresses
the network call; a stored negative entry or an absent key triggers a network
call, whose result — positive or negative — is then stored under the
normalized key. -/
theorem c9_cache_behaviour (cache : List (String × Option GeoPoint))
    (net : String → Option GeoPoint) (searchVal : String) :
    ((geocodeStep cache net searchVal).2.1 = false ↔
      ∃ g, cacheLookup cache (normalizeName searchVal) = some g) ∧
    ((geocodeStep cache net searchVal).2.1 = true →
      (geocodeStep cache net searchVal).1 = net searchVal ∧
      (geocodeStep cache net searchVal).2.2 =
        mapSet cache (normalizeName searchVal) (net searchVal)) ∧
    ((geocodeStep cache net searchVal).2.1 = false →
      (geocodeStep cache net searchVal).2.2 = cache ∧
      (geocodeStep cache net searchVal).1 = cacheLookup cache (normalizeName searchVal)) := by
  unfold geocodeStep
  cases h : cacheLookup cache (normalizeName searchVal) with
  | some g => simp [h]
  | none => simp [h]

/-- Claim C9 (witness): instantiating the cache behaviour at a concrete
positive entry. -/
theorem c9_cache_behaviour_witness :
    (geocodeStep [("K", some (GeoPoint.mk (qInt 1) (qInt 2)))]
        (fun _ => none) "K").2.2 = [("K", some (GeoPoint.mk (qInt 1) (qInt 2)))] :=
  ((c9_cache_behaviour [("K", some (GeoPoint.mk (qInt 1) (qInt 2)))] (fun _ => none) "K").2.2
    (by decide)).1

/-- Claim C6: the manifest update of both dataset families goes through a JS
`Set`, so every identifier occurs at most once after any build; the published
identifier occurs exactly once; and adding an identifier that is already
present is a no-op on the list. -/
theorem c6_manifest_no_duplicates :
    (∀ (l : List String) (s x : String), (updateAmenSnapshots l s).count x ≤ 1) ∧
    (∀ (l : List String) (s : String), (updateAmenSnapshots l s).count s = 1) ∧
    (∀ (l : List String) (s : String), s ∈ l →
      updateAmenSnapshots l s = jsSort snapLE (jsSetOfList l)) ∧
    (∀ (v : List ℤ) (ys : List ℤ) (x : ℤ), (updateDenomVintages v ys).count x ≤ 1) ∧
    (∀ (v : List ℤ) (y : ℤ), (updateDenomVintages v [y]).count y = 1) ∧
    (∀ (v : List ℤ) (y : ℤ), y ∈ v → updateDenomVintages v [y] = updateDenomVintages v []) := by
  have hAmenNodup : ∀ (l : List String) (s : String), (updateAmenSnapshots l s).Nodup := by
    intro l s
    have h1 : (jsSetAdd (jsSetOfList l) s).Nodup := jsSetAdd_nodup (jsSetOfList_nodup l) s
    exact ((jsSort_perm snapLE _).nodup_iff).mpr h1
  have hDenomNodup : ∀ (v ys : List ℤ), (updateDenomVintages v ys).Nodup := by
    intro v ys
    have h1 : (ys.foldl jsSetAdd (jsSetOfList v)).Nodup :=
      foldl_jsSetAdd_nodup ys _ (jsSetOfList_nodup v)
    exact ((jsSort_perm _ _).nodup_iff).mpr h1
  refine ⟨?_, ?_, ?_, ?_, ?_, ?_⟩
  · intro l s x
    exact List.nodup_iff_count_le_one.mp (hAmenNodup l s) x
  · intro l s
    have hmem : s ∈ updateAmenSnapshots l s := by
      have : s ∈ jsSetAdd (jsSetOfList l) s := mem_jsSetAdd.mpr (Or.inr rfl)
      exact ((jsSort_perm snapLE _).mem_iff).mpr this
    rw [List.count_eq_of_nodup (hAmenNodup l s), if_pos hmem]
  · intro l s hs
    unfold updateAmenSnapshots
    rw [jsSetAdd_eq_of_mem ((mem_jsSetOfList l s).mpr hs)]
  · intro v ys x
    exact List.nodup_iff_count_le_one.mp (hDenomNodup v ys) x
  · intro v y
    have hmem : y ∈ updateDenomVintages v [y] := by
      have : y ∈ jsSetAdd (jsSetOfList v) y := mem_jsSetAdd.mpr (Or.inr rfl)
      exact ((jsSort_perm _ _).mem_iff).mpr (by simpa using this)
    rw [List.count_eq_of_nodup (hDenomNodup v [y]), if_pos hmem]
  · intro v y hy
    unfold updateDenomVintages
    simp only [List.foldl_cons, List.foldl_nil]
    rw [jsSetAdd_eq_of_mem ((mem_jsSetOfList v y).mpr hy)]

/-- Claim C6 (witness): force-rebuilding the already-published snapshot
`2024Q1` and vintage `2024` leaves them listed exactly once, and the add is a
no-op. -/
theorem c6_manifest_no_duplicates_witness :
    (updateAmenSnapshots ["2024Q1"] "2024Q1").count "2024Q1" = 1 ∧
    updateAmenSnapshots ["2024Q1"] "2024Q1" = jsSort snapLE (jsSetOfList ["2024Q1"]) ∧
    (updateDenomVintages [2024] [2024]).count 2024 = 1 ∧
    updateDenomVintages [2024] [2024] = updateDenomVintages [2024] [] :=
  ⟨c6_manifest_no_duplicates.2.1 ["2024Q1"] "2024Q1",
   c6_manifest_no_duplicates.2.2.1 ["2024Q1"] "2024Q1" (by decide),
   c6_manifest_no_duplicates.2.2.2.2.1 [2024] 2024,
   c6_manifest_no_duplicates.2.2.2.2.2 [2024] 2024 (by decide)⟩

theorem rowRecord_none_iff (col : ParseCols) (d : ℤ) (row : List String) :
    rowRecord col d row = none ↔ rowFails col d row = true := by
  unfold rowRecord rowFails
  cases hy : rowYear col d row with
  | none => simp
  | some y =>
    cases hp : toInt (getCell row col.pop) with
    | none => simp
    | some p =>
      dsimp only
      by_cases hc : normalizeName (getCell row col.pa) = "" ∨
          normalizeName (getCell row col.sz) = "" ∨ y = 0 ∨ p < 0
      · rw [if_pos (by rcases hc with h | h | h | h <;> simp [h])]
        simp only [true_iff]
        rcases hc with h | h | h | h <;> simp [h]
      · push_neg at hc
        obtain ⟨h1, h2, h3, h4⟩ := hc
        rw [if_neg (by simp [h1, h2, h3, h4])]
        simp [h1, h2, h3, h4]

theorem parseRowStep_eq (col : ParseCols) (d : ℤ) (row : List String)
    (acc : List ResidentRow × ℕ) :
    parseRowStep col d row acc =
      if row.isEmpty then acc
      else
        match rowRecord col d row with
        | some rec => (rec :: acc.1, acc.2)
        | none => (acc.1, acc.2 + 1) := by
  unfold parseRowStep rowRecord
  by_cases hemp : row.isEmpty
  · simp [hemp]
  · rw [if_neg hemp, if_neg hemp]
    cases hy : rowYear col d row with
    | none => rfl
    | some y =>
      cases hp : toInt (getCell row col.pop) with
      | none => rfl
      | some p =>
        dsimp only
        by_cases hc : normalizeName (getCell row col.pa) = "" ∨
            normalizeName (getCell row col.sz) = "" ∨ y = 0 ∨ p < 0
        · rw [if_pos (by rcases hc with h | h | h | h <;> simp [h]),
            if_pos (by rcases hc with h | h | h | h <;> simp [h])]
        · push_neg at hc
          obtain ⟨h1, h2, h3, h4⟩ := hc
          rw [if_neg (by simp [h1, h2, h3, h4]), if_neg (by simp [h1, h2, h3, h4])]

theorem parseRowsGo_spec (col : ParseCols) (d : ℤ) (rows : List (List String)) :
    (parseRowsGo col d rows).2 =
      ((rows.filter (fun r => !r.isEmpty)).countP (rowFails col d)) ∧
    (parseRowsGo col d rows).1 =
      (rows.filter (fun r => !r.isEmpty)).filterMap (rowRecord col d) := by
  induction rows with
  | nil => simp [parseRowsGo]
  | cons row rest ih =>
    have hstep : parseRowsGo col d (row :: rest) =
        parseRowStep col d row (parseRowsGo col d rest) := rfl
    rw [hstep, parseRowStep_eq]
    by_cases hemp : row.isEmpty
    · rw [if_pos hemp]
      have : (row :: rest).filter (fun r => !r.isEmpty) = rest.filter (fun r => !r.isEmpty) := by
        simp [List.filter_cons, hemp]
      rw [this]
      exact ih
    · rw [if_neg hemp]
      have hfil : (row :: rest).filter (fun r => !r.isEmpty) =
          row :: rest.filter (fun r => !r.isEmpty) := by
        simp [List.filter_cons, hemp]
      rw [hfil]
      cases hrec : rowRecord col d row with
      | none =>
        have hfail : rowFails col d row = true := (rowRecord_none_iff col d row).mp hrec
        constructor
        · simp [List.countP_cons, hfail, ih.1]
        · simp [List.filterMap_cons, hrec, ih.2]
      | some rec =>
        have hfail : rowFails col d row = false := by
          by_contra hne
          have : rowFails col d row = true := by
            cases hb : rowFails col d row
            · exact absurd hb hne
            · rfl
          rw [← rowRecord_none_iff col d row] at this
          rw [hrec] at this
          cases this
        constructor
        · simp [List.countP_cons, hfail, ih.1]
        · simp [List.filterMap_cons, hrec, ih.2]

theorem except_eq_ok_of_toOption {ε α : Type} {e : Except ε α} {a : α}
    (h : e.toOption = some a) : e = Except.ok a := by
  cases e with
  | error x => simp [Except.toOption] at h
  | ok b =>
    simp [Except.toOption] at h
    rw [h]

/-- Claim C7 (counterexample): a row rejected for a blank region identifier
and a row rejected for a negative population produce byte-identical parser
results — a single undifferentiated `dropped` count of `1` and no per-reason
tally anywhere in the observable output. -/
theorem c7_counterexample :
    (parseResidentCsv [["PA", "SZ", "Age", "Sex", "Pop"], ["", "B", "5", "F", "10"]]
        2024).toOption = some ([], 1) ∧
    (parseResidentCsv [["PA", "SZ", "Age", "Sex", "Pop"], ["A", "B", "5", "F", "-10"]]
        2024).toOption = some ([], 1) ∧
    normalizeName "" = "" ∧ normalizeName "A" ≠ "" ∧ toInt "-10" = some (-10) ∧
    ¬((-10 : ℤ) < 0 → False) := by
  refine ⟨by decide, by decide, by decide, by decide, by decide, by decide⟩

/-- Claim C7 (amended): every failing non-empty data row is dropped and
counted — but in one aggregate `dropped` counter, not a per-reason tally:
the drop count is exactly the number of rows failing validation, and the kept
rows are exactly the validated records, in order. -/
theorem c7_dropped_accounting (rows : List (List String)) (d : ℤ)
    (out : List ResidentRow) (dropped : ℕ)
    (h : parseResidentCsv rows d = .ok (out, dropped)) :
    dropped = ((rows.tail.filter (fun r => !r.isEmpty)).countP
        (rowFails (residentCols ((rows.headD []).map normalizeHeader)) d)) ∧
    out = (rows.tail.filter (fun r => !r.isEmpty)).filterMap
        (rowRecord (residentCols ((rows.headD []).map normalizeHeader)) d) := by
  unfold parseResidentCsv at h
  split at h
  · cases h
  · split at h
    · cases h
    · have hpair : parseRowsGo (residentCols ((rows.headD []).map normalizeHeader)) d rows.tail
          = (out, dropped) := by
        injection h
      have hspec := parseRowsGo_spec (residentCols ((rows.headD []).map normalizeHeader)) d rows.tail
      rw [hpair] at hspec
      exact ⟨hspec.1, hspec.2⟩

/-- Claim C7 (witness): the accounting instantiated on a CSV with one blank
region row, one negative-population row and one valid row. -/
theorem c7_dropped_accounting_witness :
    (parseResidentCsv
        [["PA", "SZ", "Age", "Sex", "Pop"],
         ["", "B", "5", "F", "10"], ["A", "B", "5", "F", "-10"], ["A", "B", "5", "F", "10"]]
        2024).toOption = some ([⟨2024, "A", "B", "F", "5", some 5, 10⟩], 2) ∧
    2 = (([["", "B", "5", "F", "10"], ["A", "B", "5", "F", "-10"],
          ["A", "B", "5", "F", "10"]].filter (fun r => !r.isEmpty)).countP
        (rowFails (residentCols (["PA", "SZ", "Age", "Sex", "Pop"].map normalizeHeader)) 2024)) := by
  have h : parseResidentCsv
      [["PA", "SZ", "Age", "Sex", "Pop"],
       ["", "B", "5", "F", "10"], ["A", "B", "5", "F", "-10"], ["A", "B", "5", "F", "10"]]
      2024 = .ok ([⟨2024, "A", "B", "F", "5", some 5, 10⟩], 2) :=
    except_eq_ok_of_toOption (by decide)
  refine ⟨by rw [h]; rfl, ?_⟩
  exact (c7_dropped_accounting _ 2024 _ 2 h).1

theorem csvWith_eval (tok : String) :
    parseResidentCsv (csvWith tok) 0 =
      .ok (match toInt tok with
        | some p =>
          if p < 0 then ([], 1) else ([⟨2024, "A", "B", "F", "5", some 5, p⟩], 0)
        | none => ([], 1)) := by
  have hcols : residentCols ((["PA", "SZ", "Age", "Sex", "Pop", "Time"] : List String).map
      normalizeHeader) = ⟨0, 1, 2, 3, 4, 5⟩ := by decide
  unfold parseResidentCsv
  rw [if_neg (by simp [csvWith])]
  rw [show ((csvWith tok).headD []) = ["PA", "SZ", "Age", "Sex", "Pop", "Time"] from rfl]
  rw [hcols]
  rw [if_neg (by decide)]
  rw [show (csvWith tok).tail = [["A", "B", "5", "F", tok, "2024"]] from rfl]
  unfold parseRowsGo
  rw [List.foldr_cons, List.foldr_nil, parseRowStep_eq]
  rw [if_neg (by simp)]
  have hyear : rowYear ⟨0, 1, 2, 3, 4, 5⟩ 0 ["A", "B", "5", "F", tok, "2024"] = some 2024 := by
    unfold rowYear
    rw [if_pos (by decide)]
    rw [show getCell ["A", "B", "5", "F", tok, "2024"] 5 = "2024" from rfl]
    decide
  have hpop : getCell ["A", "B", "5", "F", tok, "2024"] 4 = tok := rfl
  have hpa : normalizeName (getCell ["A", "B", "5", "F", tok, "2024"] 0) = "A" := by
    rw [show getCell ["A", "B", "5", "F", tok, "2024"] 0 = "A" from rfl]
    decide
  have hsz : normalizeName (getCell ["A", "B", "5", "F", tok, "2024"] 1) = "B" := by
    rw [show getCell ["A", "B", "5", "F", tok, "2024"] 1 = "B" from rfl]
    decide
  have hage : jsTrimStr (getCell ["A", "B", "5", "F", tok, "2024"] 2) = "5" := by
    rw [show getCell ["A", "B", "5", "F", tok, "2024"] 2 = "5" from rfl]
    decide
  have hsex : jsTrimStr (jsUpperStr (getCell ["A", "B", "5", "F", tok, "2024"] 3)) = "F" := by
    rw [show getCell ["A", "B", "5", "F", tok, "2024"] 3 = "F" from rfl]
    decide
  cases hti : toInt tok with
  | none =>
    have hrec : rowRecord ⟨0, 1, 2, 3, 4, 5⟩ 0 ["A", "B", "5", "F", tok, "2024"] = none := by
      unfold rowRecord
      rw [hyear, show getCell ["A", "B", "5", "F", tok, "2024"] 4 = tok from rfl, hti]
    rw [hrec]
  | some p =>
    have hrec : rowRecord ⟨0, 1, 2, 3, 4, 5⟩ 0 ["A", "B", "5", "F", tok, "2024"] =
        (if p < 0 then none
         else some ⟨2024, "A", "B", "F", "5", some 5, p⟩) := by
      unfold rowRecord
      rw [hyear, show getCell ["A", "B", "5", "F", tok, "2024"] 4 = tok from rfl, hti]
      dsimp only
      rw [hpa, hsz, hage, hsex]
      by_cases hneg : p < 0
      · rw [if_pos (by simp [hneg]), if_pos hneg]
      · rw [if_neg (by simp [hneg]), if_neg hneg]
        rw [show parseAgeInt "5" = some 5 from by decide]
    rw [hrec]
    dsimp only
    by_cases hneg : p < 0
    · rw [if_pos hneg, if_pos hneg]
    · rw [if_neg hneg, if_neg hneg]

/-- Claim C10: the count parser `toInt` accepts non-integer tokens and
truncates toward zero — `"12.7"` yields 12, `"1,234"` yields 1234; every
token whose comma-stripped, trimmed form is non-empty and parses as a finite
number is truncated toward zero; `null` results are exactly the empty and
non-finite cases; and in `parseResidentCsv` such a row is kept with the
truncated population iff that value is non-negative, dropped otherwise. -/
theorem c10_toInt_truncates :
    toInt "12.7" = some 12 ∧ toInt "1,234" = some 1234 ∧
    (∀ (s : String) (q : ℚ), jsNumberOf (cleanedTok s) = JsNum.val q → cleanedTok s ≠ [] →
      toInt s = some (ratTrunc q)) ∧
    (∀ s : String, toInt s = none ↔
      (cleanedTok s = [] ∨ jsNumberOf (cleanedTok s) = .nan ∨
       jsNumberOf (cleanedTok s) = .inf true ∨ jsNumberOf (cleanedTok s) = .inf false)) ∧
    (∀ (tok : String) (p : ℤ), toInt tok = some p → 0 ≤ p →
      parseResidentCsv (csvWith tok) 0 = .ok ([⟨2024, "A", "B", "F", "5", some 5, p⟩], 0)) ∧
    (∀ (tok : String) (p : ℤ), toInt tok = some p → p < 0 →
      parseResidentCsv (csvWith tok) 0 = .ok ([], 1)) ∧
    (∀ tok : String, toInt tok = none → parseResidentCsv (csvWith tok) 0 = .ok ([], 1)) := by
  have hne : ∀ s : String, cleanedTok s ≠ [] → ((cleanedTok s).isEmpty = false) := by
    intro s h
    cases hc : cleanedTok s with
    | nil => exact absurd hc h
    | cons a l => rfl
  refine ⟨by decide, by decide, ?_, ?_, ?_, ?_, ?_⟩
  · intro s q hq hnil
    unfold toInt
    rw [hne s hnil, hq]
    rfl
  · intro s
    unfold toInt
    by_cases hnil : cleanedTok s = []
    · rw [hnil]
      simp
    · rw [hne s hnil]
      cases hq : jsNumberOf (cleanedTok s) with
      | nan => simp [hnil]
      | inf b => cases b <;> simp [hnil]
      | val q => simp [hnil, hq]
  · intro tok p hp hge
    rw [csvWith_eval, hp]
    dsimp only
    rw [if_neg (by omega)]
  · intro tok p hp hlt
    rw [csvWith_eval, hp]
    dsimp only
    rw [if_pos hlt]
  · intro tok hp
    rw [csvWith_eval, hp]

/-- Claim C10 (witness): the truncation facts instantiated at `"12.7"`,
`"-3"` and `"x"`. -/
theorem c10_toInt_truncates_witness :
    toInt "12.7" = some (ratTrunc (Rat.divInt 127 10)) ∧
    parseResidentCsv (csvWith "12.7") 0 = .ok ([⟨2024, "A", "B", "F", "5", some 5, 12⟩], 0) ∧
    parseResidentCsv (csvWith "-3") 0 = .ok ([], 1) ∧
    parseResidentCsv (csvWith "x") 0 = .ok ([], 1) :=
  ⟨c10_toInt_truncates.2.2.1 "12.7" (Rat.divInt 127 10) (by decide) (by decide),
   by
    have h12 : toInt "12.7" = some 12 := by decide
    exact c10_toInt_truncates.2.2.2.2.1 "12.7" 12 h12 (by decide),
   c10_toInt_truncates.2.2.2.2.2.1 "-3" (-3) (by decide) (by decide),
   c10_toInt_truncates.2.2.2.2.2.2 "x" (by decide)⟩

theorem addToMap_cons_of_ne {κ : Type} [DecidableEq κ] {p : κ × ℤ} {ps : List (κ × ℤ)}
    {k : κ} (hp : p.1 ≠ k) (v : ℤ) : addToMap (p :: ps) k v = p :: addToMap ps k v := by
  have hd : (decide (p.1 = k)) = false := by simp [hp]
  unfold addToMap mapSet mapGet
  simp only [List.any_cons, List.find?_cons, hd, Bool.false_or]
  split
  · simp only [List.map_cons]
    rw [if_neg hp]
  · simp

theorem map_set_id_of_no_key {κ : Type} [DecidableEq κ] {ps : List (κ × ℤ)} {k : κ}
    (w : κ × ℤ) (hps : ∀ p' ∈ ps, p'.1 ≠ k) :
    ps.map (fun p' => if p'.1 = k then w else p') = ps := by
  induction ps with
  | nil => rfl
  | cons q qs ih =>
    simp only [List.map_cons]
    rw [if_neg (hps q (by simp)), ih (fun p' hp' => hps p' (by simp [hp']))]

theorem addToMap_cons_of_eq {κ : Type} [DecidableEq κ] {p : κ × ℤ} {ps : List (κ × ℤ)}
    {k : κ} (hp : p.1 = k) (hps : ∀ p' ∈ ps, p'.1 ≠ k) (v : ℤ) :
    addToMap (p :: ps) k v = (k, p.2 + v) :: ps := by
  have hd : (decide (p.1 = k)) = true := by simp [hp]
  unfold addToMap mapSet mapGet
  simp only [List.any_cons, List.find?_cons, hd, Bool.true_or, if_true]
  simp only [Option.map_some, Option.getD_some, List.map_cons]
  rw [if_pos hp]
  congr 1
  exact map_set_id_of_no_key _ hps

theorem mapValuesSum_addToMap {κ : Type} [DecidableEq κ] (m : List (κ × ℤ)) (h : keysNodup m)
    (k : κ) (v : ℤ) : mapValuesSum (addToMap m k v) = mapValuesSum m + v := by
  induction m with
  | nil => simp [addToMap, mapSet, mapGet, mapValuesSum]
  | cons p ps ih =>
    have hnd : keysNodup ps := by
      unfold keysNodup at h ⊢
      exact (List.nodup_cons.mp h).2
    by_cases hp : p.1 = k
    · have hps : ∀ p' ∈ ps, p'.1 ≠ k := by
        intro p' hp'
        unfold keysNodup at h
        have := (List.nodup_cons.mp h).1
        intro hk
        exact this (by
          rw [hp] at this ⊢
          exact (List.mem_map.mpr ⟨p', hp', by rw [hk, ← hp]⟩))
      rw [addToMap_cons_of_eq hp hps v]
      simp only [mapValuesSum, List.map_cons, List.sum_cons]
      ring
    · rw [addToMap_cons_of_ne hp v]
      simp only [mapValuesSum, List.map_cons, List.sum_cons]
      have hih := ih hnd
      simp only [mapValuesSum] at hih
      rw [hih]
      ring

theorem buildDenomsMaps_aux (year : ℤ) (rows : List ResidentRow) :
    ∀ acc : List ((String × String) × ℤ) × List ((String × String × String) × ℤ),
      keysNodup acc.1 → keysNodup acc.2 →
      keysNodup (rows.foldl
        (fun acc row =>
          if row.year ≠ year then acc
          else
            (addToMap (addToMap acc.1 (row.pa, ageGroup row.ageInt) row.pop) (row.pa, "ALL") row.pop,
             addToMap (addToMap acc.2 (row.pa, row.sz, ageGroup row.ageInt) row.pop)
               (row.pa, row.sz, "ALL") row.pop)) acc).1 ∧
      keysNodup (rows.foldl
        (fun acc row =>
          if row.year ≠ year then acc
          else
            (addToMap (addToMap acc.1 (row.pa, ageGroup row.ageInt) row.pop) (row.pa, "ALL") row.pop,
             addToMap (addToMap acc.2 (row.pa, row.sz, ageGroup row.ageInt) row.pop)
               (row.pa, row.sz, "ALL") row.pop)) acc).2 ∧
      mapValuesSum (rows.foldl
        (fun acc row =>
          if row.year ≠ year then acc
          else
            (addToMap (addToMap acc.1 (row.pa, ageGroup row.ageInt) row.pop) (row.pa, "ALL") row.pop,
             addToMap (addToMap acc.2 (row.pa, row.sz, ageGroup row.ageInt) row.pop)
               (row.pa, row.sz, "ALL") row.pop)) acc).1 =
        mapValuesSum acc.1 + 2 * popSum rows year ∧
      mapValuesSum (rows.foldl
        (fun acc row =>
          if row.year ≠ year then acc
          else
            (addToMap (addToMap acc.1 (row.pa, ageGroup row.ageInt) row.pop) (row.pa, "ALL") row.pop,
             addToMap (addToMap acc.2 (row.pa, row.sz, ageGroup row.ageInt) row.pop)
               (row.pa, row.sz, "ALL") row.pop)) acc).2 =
        mapValuesSum acc.2 + 2 * popSum rows year := by
  induction rows with
  | nil => intro acc h1 h2; simp [popSum, h1, h2]
  | cons row rest ih =>
    intro acc h1 h2
    simp only [List.foldl_cons]
    by_cases hy : row.year = year
    · rw [if_neg (by simp [hy])]
      have h1a : keysNodup (addToMap (addToMap acc.1 (row.pa, ageGroup row.ageInt) row.pop)
          (row.pa, "ALL") row.pop) :=
        addToMap_keysNodup (addToMap_keysNodup h1 _ _) _ _
      have h2a : keysNodup (addToMap (addToMap acc.2 (row.pa, row.sz, ageGroup row.ageInt) row.pop)
          (row.pa, row.sz, "ALL") row.pop) :=
        addToMap_keysNodup (addToMap_keysNodup h2 _ _) _ _
      obtain ⟨k1, k2, s1, s2⟩ := ih
        (addToMap (addToMap acc.1 (row.pa, ageGroup row.ageInt) row.pop) (row.pa, "ALL") row.pop,
         addToMap (addToMap acc.2 (row.pa, row.sz, ageGroup row.ageInt) row.pop)
           (row.pa, row.sz, "ALL") row.pop) h1a h2a
      refine ⟨k1, k2, ?_, ?_⟩
      · rw [s1, mapValuesSum_addToMap _ (addToMap_keysNodup h1 _ _),
          mapValuesSum_addToMap _ h1]
        simp [popSum, List.filter_cons, hy]
        ring
      · rw [s2, mapValuesSum_addToMap _ (addToMap_keysNodup h2 _ _),
          mapValuesSum_addToMap _ h2]
        simp [popSum, List.filter_cons, hy]
        ring
    · rw [if_pos (by simp [hy])]
      obtain ⟨k1, k2, s1, s2⟩ := ih acc h1 h2
      refine ⟨k1, k2, ?_, ?_⟩
      · rw [s1]
        simp [popSum, List.filter_cons, hy]
      · rw [s2]
        simp [popSum, List.filter_cons, hy]

theorem buildDenomsMaps_spec (rows : List ResidentRow) (year : ℤ) :
    keysNodup (buildDenomsMaps rows year).1 ∧ keysNodup (buildDenomsMaps rows year).2 ∧
    mapValuesSum (buildDenomsMaps rows year).1 = 2 * popSum rows year ∧
    mapValuesSum (buildDenomsMaps rows year).2 = 2 * popSum rows year := by
  have := buildDenomsMaps_aux year rows ([], [])
    (by simp [keysNodup]) (by simp [keysNodup])
  simpa [buildDenomsMaps, mapValuesSum] using this

/-- Claim C3: on the two-row scenario the coarse aggregate for region `A` is
`ALL = 150`, `CHILD_0_6 = 100`, `SENIOR_65_PLUS = 50` and `0` elsewhere; in
general the accumulators at both granularities receive exactly twice each
matching row's population (its age bucket plus the umbrella `ALL` bucket),
the age buckets follow the inclusive ranges, and a non-numeric age token maps
to the oldest bucket. -/
theorem c3_scenario_two_buckets :
    (buildDenoms
      [⟨2024, "A", "A1", "F", "5", parseAgeInt "5", 100⟩,
       ⟨2024, "A", "A1", "F", "70", parseAgeInt "70", 50⟩] 2024).1 =
    [⟨2024, "A", "ADULT_35_54", 0⟩, ⟨2024, "A", "ALL", 150⟩,
     ⟨2024, "A", "CHILD_0_6", 100⟩, ⟨2024, "A", "CHILD_7_12", 0⟩,
     ⟨2024, "A", "SENIOR_65_PLUS", 50⟩, ⟨2024, "A", "TEEN_13_18", 0⟩,
     ⟨2024, "A", "YOUNG_ADULT_19_34", 0⟩, ⟨2024, "A", "YOUNG_SENIOR_55_64", 0⟩] ∧
    (∀ (rows : List ResidentRow) (year : ℤ),
      mapValuesSum (buildDenomsMaps rows year).1 = 2 * popSum rows year ∧
      mapValuesSum (buildDenomsMaps rows year).2 = 2 * popSum rows year) ∧
    ageGroup none = "SENIOR_65_PLUS" ∧
    (∀ s : String, parseAgeInt s = none → ageGroup (parseAgeInt s) = "SENIOR_65_PLUS") ∧
    (∀ a : ℤ,
      (0 ≤ a ∧ a ≤ 6 → ageGroup (some a) = "CHILD_0_6") ∧
      (7 ≤ a ∧ a ≤ 12 → ageGroup (some a) = "CHILD_7_12") ∧
      (13 ≤ a ∧ a ≤ 18 → ageGroup (some a) = "TEEN_13_18") ∧
      (19 ≤ a ∧ a ≤ 34 → ageGroup (some a) = "YOUNG_ADULT_19_34") ∧
      (35 ≤ a ∧ a ≤ 54 → ageGroup (some a) = "ADULT_35_54") ∧
      (55 ≤ a ∧ a ≤ 64 → ageGroup (some a) = "YOUNG_SENIOR_55_64") ∧
      (65 ≤ a → ageGroup (some a) = "SENIOR_65_PLUS")) := by
  refine ⟨by decide, ?_, by decide, ?_, ?_⟩
  · intro rows year
    have h := buildDenomsMaps_spec rows year
    exact ⟨h.2.2.1, h.2.2.2⟩
  · intro s h
    rw [h]
    rfl
  · intro a
    unfold ageGroup
    dsimp only
    refine ⟨?_, ?_, ?_, ?_, ?_, ?_, ?_⟩
    · intro h
      rw [if_pos h]
    · intro h
      rw [if_neg (by omega), if_pos h]
    · intro h
      rw [if_neg (by omega), if_neg (by omega), if_pos h]
    · intro h
      rw [if_neg (by omega), if_neg (by omega), if_neg (by omega), if_pos h]
    · intro h
      rw [if_neg (by omega), if_neg (by omega), if_neg (by omega), if_neg (by omega), if_pos h]
    · intro h
      rw [if_neg (by omega), if_neg (by omega), if_neg (by omega), if_neg (by omega),
        if_neg (by omega), if_pos h]
    · intro h
      rw [if_neg (by omega), if_neg (by omega), if_neg (by omega), if_neg (by omega),
        if_neg (by omega), if_neg (by omega), if_pos h]

/-- Claim C3 (witness): the bucket facts instantiated at ages 5 and 70 and at
the non-numeric token `"90+"`, and the double-count identity on the scenario
rows. -/
theorem c3_scenario_two_buckets_witness :
    ageGroup (some 5) = "CHILD_0_6" ∧ ageGroup (some 70) = "SENIOR_65_PLUS" ∧
    ageGroup (parseAgeInt "90+") = "SENIOR_65_PLUS" ∧
    mapValuesSum (buildDenomsMaps
      [⟨2024, "A", "A1", "F", "5", parseAgeInt "5", 100⟩,
       ⟨2024, "A", "A1", "F", "70", parseAgeInt "70", 50⟩] 2024).1 = 2 * 150 :=
  ⟨(c3_scenario_two_buckets.2.2.2.2 5).1 (by decide),
   (c3_scenario_two_buckets.2.2.2.2 70).2.2.2.2.2.2 (by decide),
   c3_scenario_two_buckets.2.2.2.1 "90+" (by decide),
   by
    have h := (c3_scenario_two_buckets.2.1
      [⟨2024, "A", "A1", "F", "5", parseAgeInt "5", 100⟩,
       ⟨2024, "A", "A1", "F", "70", parseAgeInt "70", 50⟩] 2024).1
    rw [h]
    decide⟩

/-- Claim C1 (counterexample): a point inside a subzone polygon whose
planning-area name is unresolved (`null`) is NOT counted as unassigned — it
is assigned, and counted in both tables under the placeholder planning area
`"UNKNOWN"`. -/
theorem c1_counterexample :
    (assignPoint [squareNoPa] "gp_clinics" ⟨[], [], 0, 0⟩ (qInt 5) (qInt 5)).unassigned = 0 ∧
    (assignPoint [squareNoPa] "gp_clinics" ⟨[], [], 0, 0⟩ (qInt 5) (qInt 5)).paCount =
      [(("UNKNOWN", "gp_clinics"), 1)] ∧
    (assignPoint [squareNoPa] "gp_clinics" ⟨[], [], 0, 0⟩ (qInt 5) (qInt 5)).szCount =
      [(("UNKNOWN", "S", "gp_clinics"), 1)] ∧
    findContainingSubzone (qInt 5) (qInt 5) [squareNoPa] = some (none, "S") := by
  with_unfolding_all exact ⟨rfl, rfl, rfl, rfl⟩

/-- Claim C1 (amended): a point with no containing ring-set (or one whose
subzone name is blank) increments `unassigned` and touches neither table; a
matched point is counted once in each table — never partially — with an
unresolved or blank planning-area name replaced by `"UNKNOWN"`, and the
per-point step changes each table's total by exactly one in that case. -/
theorem c1_point_assignment :
    (∀ (polygons : List SubzonePolygon) (cat : String) (st : AmenState) (lon lat : ℚ),
      (findContainingSubzone lon lat polygons = none ∨
        (∃ m, findContainingSubzone lon lat polygons = some m ∧ m.2 = "")) →
      assignPoint polygons cat st lon lat = { st with unassigned := st.unassigned + 1 }) ∧
    (∀ (polygons : List SubzonePolygon) (cat : String) (st : AmenState) (lon lat : ℚ)
        (m : Option String × String),
      findContainingSubzone lon lat polygons = some m → m.2 ≠ "" →
      assignPoint polygons cat st lon lat =
        { st with
          szCount := addToMap st.szCount (paOf m.1, normalizeName m.2, cat) 1
          paCount := addToMap st.paCount (paOf m.1, cat) 1
          assigned := st.assigned + 1 }) ∧
    (paOf none = "UNKNOWN" ∧ paOf (some "") = "UNKNOWN") ∧
    (∀ (polygons : List SubzonePolygon) (cat : String) (st : AmenState) (lon lat : ℚ),
      keysNodup st.szCount → keysNodup st.paCount →
      ((assignPoint polygons cat st lon lat).unassigned = st.unassigned + 1 ∧
       (assignPoint polygons cat st lon lat).assigned = st.assigned ∧
       (assignPoint polygons cat st lon lat).szCount = st.szCount ∧
       (assignPoint polygons cat st lon lat).paCount = st.paCount) ∨
      ((assignPoint polygons cat st lon lat).unassigned = st.unassigned ∧
       (assignPoint polygons cat st lon lat).assigned = st.assigned + 1 ∧
       mapValuesSum (assignPoint polygons cat st lon lat).szCount =
         mapValuesSum st.szCount + 1 ∧
       mapValuesSum (assignPoint polygons cat st lon lat).paCount =
         mapValuesSum st.paCount + 1)) := by
  have hmiss : ∀ (polygons : List SubzonePolygon) (cat : String) (st : AmenState) (lon lat : ℚ),
      (findContainingSubzone lon lat polygons = none ∨
        (∃ m, findContainingSubzone lon lat polygons = some m ∧ m.2 = "")) →
      assignPoint polygons cat st lon lat = { st with unassigned := st.unassigned + 1 } := by
    intro polygons cat st lon lat h
    unfold assignPoint
    rcases h with h | ⟨m, hm, hblank⟩
    · rw [h]
    · rw [hm]
      dsimp only
      rw [if_pos hblank]
  have hhit : ∀ (polygons : List SubzonePolygon) (cat : String) (st : AmenState) (lon lat : ℚ)
      (m : Option String × String),
      findContainingSubzone lon lat polygons = some m → m.2 ≠ "" →
      assignPoint polygons cat st lon lat =
        { st with
          szCount := addToMap st.szCount (paOf m.1, normalizeName m.2, cat) 1
          paCount := addToMap st.paCount (paOf m.1, cat) 1
          assigned := st.assigned + 1 } := by
    intro polygons cat st lon lat m hm hne
    unfold assignPoint
    rw [hm]
    dsimp only
    rw [if_neg hne]
  refine ⟨hmiss, hhit, ⟨by decide, by decide⟩, ?_⟩
  intro polygons cat st lon lat hsz hpa
  cases hf : findContainingSubzone lon lat polygons with
  | none =>
    left
    rw [hmiss polygons cat st lon lat (Or.inl hf)]
    exact ⟨rfl, rfl, rfl, rfl⟩
  | some m =>
    by_cases hblank : m.2 = ""
    · left
      rw [hmiss polygons cat st lon lat (Or.inr ⟨m, hf, hblank⟩)]
      exact ⟨rfl, rfl, rfl, rfl⟩
    · right
      rw [hhit polygons cat st lon lat m hf hblank]
      refine ⟨rfl, rfl, ?_, ?_⟩
      · exact mapValuesSum_addToMap _ hsz _ 1
      · exact mapValuesSum_addToMap _ hpa _ 1

/-- Claim C1 (witness): the assignment step applied to the square subzone
with unresolved planning area at the interior point `(5, 5)`. -/
theorem c1_point_assignment_witness :
    assignPoint [squareNoPa] "gp_clinics" ⟨[], [], 0, 0⟩ (qInt 5) (qInt 5) =
      ⟨[(("UNKNOWN", "S", "gp_clinics"), 1)], [(("UNKNOWN", "gp_clinics"), 1)], 1, 0⟩ := by
  have h := c1_point_assignment.2.1 [squareNoPa] "gp_clinics" ⟨[], [], 0, 0⟩ (qInt 5) (qInt 5)
    (none, "S") (by with_unfolding_all rfl) (by decide)
  rw [h]
  decide

theorem foldl_keysNodup {κ α β : Type} [DecidableEq κ]
    (step : List (κ × α) → β → List (κ × α))
    (hstep : ∀ m b, keysNodup m → keysNodup (step m b)) :
    ∀ (l : List β) (m : List (κ × α)), keysNodup m → keysNodup (l.foldl step m) := by
  intro l
  induction l with
  | nil => intro m hm; simpa using hm
  | cons b bs ih => intro m hm; exact ih (step m b) (hstep m b hm)

theorem mem_keys_of_mem_flatMap {κ α β : Type} [DecidableEq κ]
    (labels : List String) (mkRow : κ × α → String → β) (keyOf : β → κ)
    (hkey : ∀ g n, keyOf (mkRow g n) = g.1)
    (m : List (κ × α)) (k : κ)
    (hmem : k ∈ (m.flatMap (fun g => labels.map (mkRow g))).map keyOf) :
    k ∈ m.map Prod.fst := by
  obtain ⟨r, hr, hrk⟩ := List.mem_map.mp hmem
  obtain ⟨g, hg, hrg⟩ := List.mem_flatMap.mp hr
  obtain ⟨n, _, rfl⟩ := List.mem_map.mp hrg
  rw [hkey g n] at hrk
  exact List.mem_map.mpr ⟨g, hg, hrk⟩

theorem flatMap_blocks_filter_map {κ α β : Type} [DecidableEq κ]
    (labels : List String) (mkRow : κ × α → String → β) (keyOf : β → κ) (labelOf : β → String)
    (hkey : ∀ g n, keyOf (mkRow g n) = g.1) (hlab : ∀ g n, labelOf (mkRow g n) = n) :
    ∀ (m : List (κ × α)), (m.map Prod.fst).Nodup → ∀ k : κ, k ∈ m.map Prod.fst →
    ((m.flatMap (fun g => labels.map (mkRow g))).filter
      (fun r => decide (keyOf r = k))).map labelOf = labels := by
  intro m
  induction m with
  | nil => intro _ k hk; simp at hk
  | cons g gs ih =>
    intro hnd k hk
    rw [List.map_cons] at hnd hk
    have hnd' := List.nodup_cons.mp hnd
    simp only [List.flatMap_cons, List.filter_append, List.map_append]
    by_cases hgk : g.1 = k
    · have hblock : (labels.map (mkRow g)).filter (fun r => decide (keyOf r = k)) =
          labels.map (mkRow g) := by
        rw [List.filter_eq_self]
        intro r hr
        obtain ⟨n, _, rfl⟩ := List.mem_map.mp hr
        simp [hkey, hgk]
      have hgnotin : g.1 ∉ gs.map Prod.fst := hnd'.1
      have hrest : (gs.flatMap (fun g' => labels.map (mkRow g'))).filter
          (fun r => decide (keyOf r = k)) = [] := by
        rw [List.filter_eq_nil_iff]
        intro r hr
        obtain ⟨g', hg', hrg⟩ := List.mem_flatMap.mp hr
        obtain ⟨n, _, rfl⟩ := List.mem_map.mp hrg
        simp only [hkey, decide_eq_true_eq]
        intro hk'
        exact hgnotin (by
          rw [hgk, ← hk']
          exact List.mem_map.mpr ⟨g', hg', rfl⟩)
      rw [hblock, hrest, List.map_map, List.map_nil, List.append_nil]
      have hcomp : (labelOf ∘ mkRow g) = fun n => n := by
        funext n
        simp [Function.comp, hlab]
      rw [hcomp]
      exact List.map_id labels
    · have hblock : (labels.map (mkRow g)).filter (fun r => decide (keyOf r = k)) = [] := by
        rw [List.filter_eq_nil_iff]
        intro r hr
        obtain ⟨n, _, rfl⟩ := List.mem_map.mp hr
        simp [hkey, hgk]
      have hk' : k ∈ gs.map Prod.fst := by
        rcases List.mem_cons.mp hk with h | h
        · exact absurd h.symm hgk
        · exact h
      rw [hblock, List.map_nil, List.nil_append]
      exact ih hnd'.2 k hk'

/-- Claim C2 (counterexample): the published coarse-grained amenity artifact
built from a single accumulated `(A, gp_clinics)` count lists region `A` with
only that one category — the other six recognized categories are absent, not
zero-filled, so the completion invariant fails for amenity artifacts. -/
theorem c2_counterexample :
    buildAmenPaRows "2024Q1" [(("A", "gp_clinics"), 1)] =
      [⟨"2024Q1", "A", "gp_clinics", 1⟩] ∧
    ((buildAmenPaRows "2024Q1" [(("A", "gp_clinics"), 1)]).filter
      (fun r => decide (r.pa = "A"))).map (fun r => r.category) = ["gp_clinics"] ∧
    "A" ∈ (buildAmenPaRows "2024Q1" [(("A", "gp_clinics"), 1)]).map (fun r => r.pa) ∧
    (["gp_clinics"] : List String) ≠ AMENITY_CATEGORIES ∧
    "dental" ∈ AMENITY_CATEGORIES := by
  decide

/-- Claim C2 (amended): for the resident denominator artifacts at both
granularities, every region present carries exactly the eight recognized age
buckets (as a permutation of the fixed vocabulary, zero-filled where no data
accumulated); the amenity artifacts instead carry exactly the accumulated
(region, category) pairs — no zero-filling against the category
vocabulary. -/
theorem c2_completion_denoms_only :
    (∀ (rows : List PaRow) (year : ℤ) (pa0 : String),
      pa0 ∈ (completePaGroups rows year).map (fun r => r.pa) →
      List.Perm (((completePaGroups rows year).filter (fun r => decide (r.pa = pa0))).map
        (fun r => r.age_group)) AGE_GROUPS) ∧
    (∀ (rows : List SzRow) (year : ℤ) (key : String × String),
      key ∈ (completeSzGroups rows year).map (fun r => (r.pa, r.sz)) →
      List.Perm (((completeSzGroups rows year).filter (fun r => decide ((r.pa, r.sz) = key))).map
        (fun r => r.age_group)) AGE_GROUPS) ∧
    (∀ (snap : String) (paCount : List ((String × String) × ℤ)),
      List.Perm ((buildAmenPaRows snap paCount).map (fun r => (r.pa, r.category)))
        (paCount.map Prod.fst)) ∧
    (∀ (snap : String) (szCount : List ((String × String × String) × ℤ)),
      List.Perm ((buildAmenSzRows snap szCount).map (fun r => (r.pa, r.sz, r.category)))
        (szCount.map Prod.fst)) := by
  refine ⟨?_, ?_, ?_, ?_⟩
  · intro rows year pa0 hmem
    have hre : completePaGroups rows year = jsSort paRowLE ((rows.foldl (fun m row =>
        mapSet m row.pa (mapSet ((mapGet m row.pa).getD []) row.age_group row.residents))
        []).flatMap (fun g => AGE_GROUPS.map (fun name =>
          PaRow.mk year g.1 name ((mapGet g.2 name).getD 0)))) := rfl
    rw [hre] at hmem ⊢
    have hnd : ((rows.foldl (fun m row =>
        mapSet m row.pa (mapSet ((mapGet m row.pa).getD []) row.age_group row.residents))
        []).map Prod.fst).Nodup := by
      apply foldl_keysNodup _ (fun m b hm => mapSet_keysNodup hm _ _) rows []
      simp [keysNodup]
    have hperm := jsSort_perm paRowLE ((rows.foldl (fun m row =>
        mapSet m row.pa (mapSet ((mapGet m row.pa).getD []) row.age_group row.residents))
        []).flatMap (fun g => AGE_GROUPS.map (fun name =>
          PaRow.mk year g.1 name ((mapGet g.2 name).getD 0))))
    have hk : pa0 ∈ ((rows.foldl (fun m row =>
        mapSet m row.pa (mapSet ((mapGet m row.pa).getD []) row.age_group row.residents))
        []).map Prod.fst) := by
      apply mem_keys_of_mem_flatMap AGE_GROUPS
        (fun g name => PaRow.mk year g.1 name ((mapGet g.2 name).getD 0))
        (fun r : PaRow => r.pa) (fun g n => rfl)
      exact ((hperm.map (fun r : PaRow => r.pa)).mem_iff).mp hmem
    have heq := flatMap_blocks_filter_map AGE_GROUPS
      (fun g name => PaRow.mk year g.1 name ((mapGet g.2 name).getD 0))
      (fun r : PaRow => r.pa) (fun r : PaRow => r.age_group) (fun g n => rfl) (fun g n => rfl)
      _ hnd pa0 hk
    have h2 := (hperm.filter (fun r : PaRow => decide (r.pa = pa0))).map
      (fun r : PaRow => r.age_group)
    rw [heq] at h2
    exact h2
  · intro rows year key hmem
    have hre : completeSzGroups rows year = jsSort szRowLE ((rows.foldl (fun m row =>
        mapSet m (row.pa, row.sz)
          (mapSet ((mapGet m (row.pa, row.sz)).getD []) row.age_group row.residents))
        []).flatMap (fun g => AGE_GROUPS.map (fun name =>
          SzRow.mk year g.1.1 g.1.2 name ((mapGet g.2 name).getD 0)))) := rfl
    rw [hre] at hmem ⊢
    have hnd : ((rows.foldl (fun m row =>
        mapSet m (row.pa, row.sz)
          (mapSet ((mapGet m (row.pa, row.sz)).getD []) row.age_group row.residents))
        []).map Prod.fst).Nodup := by
      apply foldl_keysNodup _ (fun m b hm => mapSet_keysNodup hm _ _) rows []
      simp [keysNodup]
    have hperm := jsSort_perm szRowLE ((rows.foldl (fun m row =>
        mapSet m (row.pa, row.sz)
          (mapSet ((mapGet m (row.pa, row.sz)).getD []) row.age_group row.residents))
        []).flatMap (fun g => AGE_GROUPS.map (fun name =>
          SzRow.mk year g.1.1 g.1.2 name ((mapGet g.2 name).getD 0))))
    have hk : key ∈ ((rows.foldl (fun m row =>
        mapSet m (row.pa, row.sz)
          (mapSet ((mapGet m (row.pa, row.sz)).getD []) row.age_group row.residents))
        []).map Prod.fst) := by
      apply mem_keys_of_mem_flatMap AGE_GROUPS
        (fun g name => SzRow.mk year g.1.1 g.1.2 name ((mapGet g.2 name).getD 0))
        (fun r : SzRow => (r.pa, r.sz)) (fun g n => by simp)
      exact ((hperm.map (fun r : SzRow => (r.pa, r.sz))).mem_iff).mp hmem
    have heq := flatMap_blocks_filter_map AGE_GROUPS
      (fun g name => SzRow.mk year g.1.1 g.1.2 name ((mapGet g.2 name).getD 0))
      (fun r : SzRow => (r.pa, r.sz)) (fun r : SzRow => r.age_group)
      (fun g n => by simp) (fun g n => rfl)
      _ hnd key hk
    have h2 := (hperm.filter (fun r : SzRow => decide ((r.pa, r.sz) = key))).map
      (fun r : SzRow => r.age_group)
    rw [heq] at h2
    exact h2
  · intro snap paCount
    unfold buildAmenPaRows
    have hperm := (jsSort_perm amenPaRowLE
      (paCount.map (fun p => AmenPaRow.mk snap p.1.1 p.1.2 p.2))).map
      (fun r : AmenPaRow => (r.pa, r.category))
    refine hperm.trans ?_
    rw [List.map_map]
    have hcomp : ((fun r : AmenPaRow => (r.pa, r.category)) ∘
        (fun p : (String × String) × ℤ => AmenPaRow.mk snap p.1.1 p.1.2 p.2)) =
        Prod.fst := by
      funext p
      rfl
    rw [hcomp]
  · intro snap szCount
    unfold buildAmenSzRows
    have hperm := (jsSort_perm amenSzRowLE
      (szCount.map (fun p => AmenSzRow.mk snap p.1.1 p.1.2.1 p.1.2.2 p.2))).map
      (fun r : AmenSzRow => (r.pa, r.sz, r.category))
    refine hperm.trans ?_
    rw [List.map_map]
    have hcomp : ((fun r : AmenSzRow => (r.pa, r.sz, r.category)) ∘
        (fun p : (String × String × String) × ℤ => AmenSzRow.mk snap p.1.1 p.1.2.1 p.1.2.2 p.2)) =
        Prod.fst := by
      funext p
      rfl
    rw [hcomp]

/-- Claim C2 (witness): the completion instantiated on a one-row input — the
single accumulated bucket for region `A` is completed to all eight bucket
labels. -/
theorem c2_completion_denoms_only_witness :
    List.Perm (((completePaGroups [⟨2024, "A", "ALL", 5⟩] 2024).filter
      (fun r => decide (r.pa = "A"))).map (fun r => r.age_group)) AGE_GROUPS :=
  c2_completion_denoms_only.1 [⟨2024, "A", "ALL", 5⟩] 2024 "A" (by decide)

/-! Infrastructure for the idempotence analysis of `normalizeName`. -/

theorem charOfNat_toNat {n : ℕ} (h : n < 55296) : (Char.ofNat n).toNat = n := by
  rw [Char.ofNat, dif_pos (Or.inl (by omega : n < 0xd800))]
  rfl

theorem toUpper_toNat_lowercase {c : Char} (h : c.toNat ≥ 97 ∧ c.toNat ≤ 122) :
    (Char.toUpper c).toNat = c.toNat - 32 := by
  unfold Char.toUpper
  rw [if_pos h]
  exact charOfNat_toNat (by omega)

theorem toUpper_eq_self_of_not_lower {c : Char} (h : ¬(c.toNat ≥ 97 ∧ c.toNat ≤ 122)) :
    Char.toUpper c = c := by
  unfold Char.toUpper
  exact if_neg h

theorem toUpper_not_lower (c : Char) :
    ¬((Char.toUpper c).toNat ≥ 97 ∧ (Char.toUpper c).toNat ≤ 122) := by
  by_cases hlow : c.toNat ≥ 97 ∧ c.toNat ≤ 122
  · rw [toUpper_toNat_lowercase hlow]
    omega
  · rw [toUpper_eq_self_of_not_lower hlow]
    exact hlow

theorem toUpper_idem (c : Char) : Char.toUpper (Char.toUpper c) = Char.toUpper c :=
  toUpper_eq_self_of_not_lower (toUpper_not_lower c)

theorem jsUpperChar_idem (c : Char) : jsUpperChar (jsUpperChar c) = jsUpperChar c := by
  unfold jsUpperChar
  by_cases hc : c = 'â'
  · rw [if_pos hc]
    decide
  · rw [if_neg hc]
    have hne : c.toUpper ≠ 'â' := by
      intro heq
      have ht := congrArg Char.toNat heq
      by_cases hlow : c.toNat ≥ 97 ∧ c.toNat ≤ 122
      · rw [toUpper_toNat_lowercase hlow] at ht
        have h2 : ('â').toNat = 226 := by decide
        omega
      · rw [toUpper_eq_self_of_not_lower hlow] at heq
        exact hc heq
    rw [if_neg hne]
    exact toUpper_idem c

theorem mem_jsTrim {l : List Char} {c : Char} (h : c ∈ jsTrim l) : c ∈ l := by
  unfold jsTrim at h
  rw [List.mem_reverse] at h
  have h1 := (List.dropWhile_sublist isJsWS).subset h
  rw [List.mem_reverse] at h1
  exact (List.dropWhile_sublist isJsWS).subset h1

theorem mem_collapseWS {c : Char} : ∀ {l : List Char}, c ∈ collapseWS l → c ∈ l ∨ c = ' ' := by
  intro l
  induction l with
  | nil => intro h; simp [collapseWS] at h
  | cons a l ih =>
    cases l with
    | nil =>
      intro h
      unfold collapseWS at h
      split at h
      · simp at h
        exact Or.inr h
      · simp at h
        exact Or.inl (by simp [h])
    | cons d rest =>
      intro h
      unfold collapseWS at h
      split at h
      · rcases ih h with h1 | h1
        · exact Or.inl (List.mem_cons_of_mem a h1)
        · exact Or.inr h1
      · split at h
        · rcases List.mem_cons.mp h with h1 | h1
          · exact Or.inr h1
          · rcases ih h1 with h2 | h2
            · exact Or.inl (List.mem_cons_of_mem a h2)
            · exact Or.inr h2
        · rcases List.mem_cons.mp h with h1 | h1
          · exact Or.inl (by simp [h1])
          · rcases ih h1 with h2 | h2
            · exact Or.inl (List.mem_cons_of_mem a h2)
            · exact Or.inr h2

theorem mem_replaceAmp {c : Char} :
    ∀ {l : List Char}, c ∈ replaceAmp l → c ∈ l ∨ c = 'A' ∨ c = 'N' ∨ c = 'D' := by
  intro l
  induction l with
  | nil => intro h; simp [replaceAmp] at h
  | cons a l ih =>
    intro h
    unfold replaceAmp at h
    split at h
    · rcases List.mem_cons.mp h with h1 | h1
      · exact Or.inr (Or.inl h1)
      · rcases List.mem_cons.mp h1 with h2 | h2
        · exact Or.inr (Or.inr (Or.inl h2))
        · rcases List.mem_cons.mp h2 with h3 | h3
          · exact Or.inr (Or.inr (Or.inr h3))
          · rcases ih h3 with h4 | h4
            · exact Or.inl (List.mem_cons_of_mem a h4)
            · exact Or.inr h4
    · rcases List.mem_cons.mp h with h1 | h1
      · exact Or.inl (by simp [h1])
      · rcases ih h1 with h2 | h2
        · exact Or.inl (List.mem_cons_of_mem a h2)
        · exact Or.inr h2

theorem mem_removeApos {l : List Char} {c : Char} (h : c ∈ removeApos l) : c ∈ l :=
  (List.mem_filter.mp h).1

theorem length_dropWhile_le (p : Char → Bool) (l : List Char) :
    (l.dropWhile p).length ≤ l.length :=
  (List.dropWhile_sublist p).length_le

theorem tightenGo_mem_aux :
    ∀ (n : ℕ) (l : List Char), l.length ≤ n → ∀ (b : Bool) (c : Char),
      c ∈ tightenGo b l → c ∈ l := by
  intro n
  induction n with
  | zero =>
    intro l hl b c hc
    cases l with
    | nil => simp [tightenGo] at hc
    | cons a rest => simp at hl
  | succ n ih =>
    intro l hl b c hc
    cases l with
    | nil => simp [tightenGo] at hc
    | cons a rest =>
      have hrest : rest.length ≤ n := by
        simp at hl
        omega
      have hdrop : (rest.dropWhile isJsWS).length ≤ n :=
        le_trans (length_dropWhile_le isJsWS rest) hrest
      unfold tightenGo at hc
      split at hc
      · split at hc
        · exact List.mem_cons_of_mem a (ih rest hrest b c hc)
        · rcases List.mem_cons.mp hc with h1 | h1
          · simp [h1]
          · exact List.mem_cons_of_mem a (ih rest hrest false c h1)
      · split at hc
        · rename_i ha
          rcases List.mem_cons.mp hc with h1 | h1
          · rw [h1, ← ha]
            simp
          · exact List.mem_cons_of_mem a (ih rest hrest true c h1)
        · rcases List.mem_cons.mp hc with h1 | h1
          · simp [h1]
          · exact List.mem_cons_of_mem a (ih rest hrest false c h1)

theorem mem_tightenGo {b : Bool} {l : List Char} {c : Char} (h : c ∈ tightenGo b l) : c ∈ l :=
  tightenGo_mem_aux l.length l le_rfl b c h

theorem mem_normalizeChars {l : List Char} {c : Char} (h : c ∈ normalizeChars l) :
    (∃ d ∈ l, c = jsUpperChar d) ∨ c = ' ' ∨ c = 'A' ∨ c = 'N' ∨ c = 'D' := by
  unfold normalizeChars tightenHyphens at h
  have h1 := mem_removeApos (mem_tightenGo h)
  rcases mem_replaceAmp h1 with h2 | h2
  · rcases mem_collapseWS h2 with h3 | h3
    · obtain ⟨d, hd, rfl⟩ := List.mem_map.mp (mem_jsTrim h3)
      exact Or.inl ⟨d, hd, rfl⟩
    · exact Or.inr (Or.inl h3)
  · tauto

/-- Uppercasing fixes every character that `normalizeChars` can emit. -/
theorem normalizeChars_upper_fixed (l : List Char) :
    ∀ c ∈ normalizeChars l, jsUpperChar c = c := by
  intro c hc
  rcases mem_normalizeChars hc with ⟨d, _, rfl⟩ | h | h | h | h
  · exact jsUpperChar_idem d
  all_goals rw [h]; decide

theorem headWS_nil : headWS [] = false := rfl

theorem headWS_cons (c : Char) (l : List Char) : headWS (c :: l) = isJsWS c := rfl

theorem head_dropWhile_not (p : Char → Bool) :
    ∀ (l : List Char) {c : Char}, (l.dropWhile p).head? = some c → p c = false := by
  intro l
  induction l with
  | nil => intro c h; simp at h
  | cons a as ih =>
    intro c h
    by_cases hp : p a
    · rw [List.dropWhile_cons_of_pos hp] at h
      exact ih h
    · rw [List.dropWhile_cons_of_neg hp] at h
      simp at h
      rw [← h]
      exact Bool.of_not_eq_true hp

theorem getLast?_cons_of_ne {α : Type} (a : α) {as : List α} (h : as ≠ []) :
    (a :: as).getLast? = as.getLast? := by
  cases as with
  | nil => exact absurd rfl h
  | cons b bs => exact List.getLast?_cons_cons

theorem getLast?_dropWhile (p : Char → Bool) :
    ∀ (l : List Char), l.dropWhile p ≠ [] → (l.dropWhile p).getLast? = l.getLast? := by
  intro l
  induction l with
  | nil => intro h; simp at h
  | cons a as ih =>
    intro h
    by_cases hp : p a
    · rw [List.dropWhile_cons_of_pos hp] at h ⊢
      have has : as ≠ [] := by
        intro he
        rw [he] at h
        simp at h
      rw [ih h, getLast?_cons_of_ne a has]
    · rw [List.dropWhile_cons_of_neg hp]

theorem headWS_jsTrim (l : List Char) : headWS (jsTrim l) = false := by
  unfold jsTrim headWS
  rw [List.head?_reverse]
  cases hd : ((l.dropWhile isJsWS).reverse.dropWhile isJsWS) with
  | nil => rfl
  | cons c r =>
    rw [← hd, getLast?_dropWhile isJsWS _ (by rw [hd]; simp), List.getLast?_reverse]
    cases hh : (l.dropWhile isJsWS).head? with
    | none => rfl
    | some x =>
      simp [head_dropWhile_not isJsWS l hh]

theorem lastWS_jsTrim (l : List Char) : lastWS (jsTrim l) = false := by
  unfold jsTrim lastWS
  rw [List.getLast?_reverse]
  cases hh : ((l.dropWhile isJsWS).reverse.dropWhile isJsWS).head? with
  | none => rfl
  | some x =>
    simp [head_dropWhile_not isJsWS _ hh]

theorem dropWhile_eq_self_of_headWS (l : List Char) (h : headWS l = false) :
    l.dropWhile isJsWS = l := by
  cases l with
  | nil => rfl
  | cons a as =>
    rw [headWS_cons] at h
    exact List.dropWhile_cons_of_neg (by simp [h])

theorem jsTrim_eq_self (l : List Char) (h1 : headWS l = false) (h2 : lastWS l = false) :
    jsTrim l = l := by
  unfold jsTrim
  rw [dropWhile_eq_self_of_headWS l h1]
  have hrev : headWS l.reverse = false := by
    unfold headWS
    rw [List.head?_reverse]
    unfold lastWS at h2
    exact h2
  rw [dropWhile_eq_self_of_headWS _ hrev, List.reverse_reverse]

theorem collapseWS_ne_nil : ∀ {l : List Char}, l ≠ [] → collapseWS l ≠ [] := by
  intro l
  induction l with
  | nil => intro h; exact absurd rfl h
  | cons a as ih =>
    intro _
    cases as with
    | nil =>
      unfold collapseWS
      split <;> simp
    | cons d rest =>
      unfold collapseWS
      split
      · exact ih (by simp)
      · split <;> simp

theorem headWS_collapseWS : ∀ (l : List Char), headWS (collapseWS l) = headWS l := by
  intro l
  induction l with
  | nil => rfl
  | cons a as ih =>
    cases as with
    | nil =>
      unfold collapseWS
      by_cases hws : isJsWS a
      · rw [if_pos hws, headWS_cons, headWS_cons, hws]
        decide
      · rw [if_neg hws]
    | cons d rest =>
      unfold collapseWS
      by_cases hws : isJsWS a
      · by_cases hwd : isJsWS d
        · rw [if_pos (by simp [hws, hwd]), ih, headWS_cons, headWS_cons, hws, hwd]
        · rw [if_neg (by simp [hwd]), if_pos hws, headWS_cons, headWS_cons, hws]
          decide
      · rw [if_neg (by simp [hws]), if_neg hws, headWS_cons, headWS_cons]

theorem spacedOK_tail {c : Char} {l : List Char} (h : spacedOK (c :: l) = true) :
    spacedOK l = true := by
  cases l with
  | nil => rfl
  | cons d rest =>
    unfold spacedOK at h
    exact (Bool.and_eq_true _ _ |>.mp h).2

theorem spacedOK_cons_not_ws {c : Char} {l : List Char} (hc : isJsWS c = false)
    (h : spacedOK l = true) : spacedOK (c :: l) = true := by
  cases l with
  | nil => simp [spacedOK, hc]
  | cons d rest =>
    unfold spacedOK
    simp [hc, h]

theorem spacedOK_cons_space {c : Char} {l : List Char} (hc : c = ' ')
    (hh : headWS l = false) (h : spacedOK l = true) : spacedOK (c :: l) = true := by
  cases l with
  | nil => simp [spacedOK, hc]
  | cons d rest =>
    rw [headWS_cons] at hh
    unfold spacedOK
    simp [hc, hh, h]

theorem spacedOK_cons_inv_ws {c : Char} {l : List Char} (h : spacedOK (c :: l) = true)
    (hc : isJsWS c = true) : c = ' ' ∧ headWS l = false := by
  cases l with
  | nil =>
    unfold spacedOK at h
    simp [hc] at h
    exact ⟨h, rfl⟩
  | cons d rest =>
    unfold spacedOK at h
    rw [Bool.and_eq_true] at h
    rcases Bool.or_eq_true _ _ |>.mp h.1 with h1 | h1
    · simp [hc] at h1
    · rw [Bool.and_eq_true] at h1
      refine ⟨by simpa using h1.1, ?_⟩
      rw [headWS_cons]
      simpa using h1.2

theorem spacedOK_collapseWS : ∀ (l : List Char), spacedOK (collapseWS l) = true := by
  intro l
  induction l with
  | nil => rfl
  | cons a as ih =>
    cases as with
    | nil =>
      unfold collapseWS
      by_cases hws : isJsWS a
      · rw [if_pos hws]
        decide
      · rw [if_neg hws]
        simp [spacedOK, hws]
    | cons d rest =>
      unfold collapseWS
      by_cases hws : isJsWS a
      · by_cases hwd : isJsWS d
        · rw [if_pos (by simp [hws, hwd])]
          exact ih
        · rw [if_neg (by simp [hwd]), if_pos hws]
          apply spacedOK_cons_space rfl
          · rw [headWS_collapseWS, headWS_cons]
            simpa using hwd
          · exact ih
      · rw [if_neg (by simp [hws]), if_neg hws]
        exact spacedOK_cons_not_ws (by simpa using hws) ih

theorem collapseWS_eq_self : ∀ (l : List Char), spacedOK l = true → collapseWS l = l := by
  intro l
  induction l with
  | nil => intro _; rfl
  | cons a as ih =>
    intro h
    cases as with
    | nil =>
      unfold collapseWS
      by_cases hws : isJsWS a
      · rw [if_pos hws]
        unfold spacedOK at h
        simp [hws] at h
        rw [h]
      · rw [if_neg hws]
    | cons d rest =>
      unfold collapseWS
      by_cases hws : isJsWS a
      · obtain ⟨hsp, hhd⟩ := spacedOK_cons_inv_ws h hws
        rw [headWS_cons] at hhd
        rw [if_neg (by simp [hhd]), if_pos hws, hsp, ih (spacedOK_tail h)]
      · rw [if_neg (by simp [hws]), if_neg hws, ih (spacedOK_tail h)]

theorem replaceAmp_ne_nil : ∀ {l : List Char}, l ≠ [] → replaceAmp l ≠ [] := by
  intro l
  cases l with
  | nil => intro h; exact absurd rfl h
  | cons a as =>
    intro _
    unfold replaceAmp
    split <;> simp

theorem headWS_replaceAmp : ∀ (l : List Char), headWS (replaceAmp l) = headWS l := by
  intro l
  cases l with
  | nil => rfl
  | cons a as =>
    unfold replaceAmp
    by_cases ha : a = '&'
    · rw [if_pos ha, headWS_cons, headWS_cons, ha]
      decide
    · rw [if_neg ha, headWS_cons, headWS_cons]

theorem lastWS_cons_of_ne {c : Char} {l : List Char} (h : l ≠ []) :
    lastWS (c :: l) = lastWS l := by
  unfold lastWS
  rw [getLast?_cons_of_ne c h]

theorem lastWS_replaceAmp : ∀ (l : List Char), lastWS (replaceAmp l) = lastWS l := by
  intro l
  induction l with
  | nil => rfl
  | cons a as ih =>
    cases as with
    | nil =>
      unfold replaceAmp
      by_cases ha : a = '&'
      · rw [if_pos ha]
        unfold replaceAmp
        rw [ha]
        decide
      · rw [if_neg ha]
        rfl
    | cons d rest =>
      have hne : replaceAmp (d :: rest) ≠ [] := replaceAmp_ne_nil (by simp)
      unfold replaceAmp
      by_cases ha : a = '&'
      · rw [if_pos ha, @lastWS_cons_of_ne 'A' _ (by simp), @lastWS_cons_of_ne 'N' _ (by simp),
          @lastWS_cons_of_ne 'D' _ hne, ih, @lastWS_cons_of_ne a (d :: rest) (by simp)]
      · rw [if_neg ha, @lastWS_cons_of_ne a _ hne, ih, @lastWS_cons_of_ne a (d :: rest) (by simp)]

theorem amp_not_mem : ∀ (l : List Char), '&' ∉ replaceAmp l := by
  intro l
  induction l with
  | nil => simp [replaceAmp]
  | cons a as ih =>
    unfold replaceAmp
    split
    · intro h
      rcases List.mem_cons.mp h with h1 | h1
      · cases h1
      · rcases List.mem_cons.mp h1 with h2 | h2
        · cases h2
        · rcases List.mem_cons.mp h2 with h3 | h3
          · cases h3
          · exact ih h3
    · rename_i ha
      intro h
      rcases List.mem_cons.mp h with h1 | h1
      · exact ha h1.symm
      · exact ih h1

theorem replaceAmp_eq_self : ∀ (l : List Char), '&' ∉ l → replaceAmp l = l := by
  intro l
  induction l with
  | nil => intro _; rfl
  | cons a as ih =>
    intro h
    unfold replaceAmp
    rw [if_neg (by
      intro ha
      exact h (by simp [ha]))]
    rw [ih (fun hm => h (List.mem_cons_of_mem a hm))]

theorem spacedOK_replaceAmp : ∀ (l : List Char), spacedOK l = true →
    spacedOK (replaceAmp l) = true := by
  intro l
  induction l with
  | nil => intro _; rfl
  | cons a as ih =>
    intro h
    have htail := ih (spacedOK_tail h)
    unfold replaceAmp
    by_cases ha : a = '&'
    · rw [if_pos ha]
      apply spacedOK_cons_not_ws (by decide)
      apply spacedOK_cons_not_ws (by decide)
      apply spacedOK_cons_not_ws (by decide)
      exact htail
    · rw [if_neg ha]
      by_cases hws : isJsWS a
      · obtain ⟨hsp, hhd⟩ := spacedOK_cons_inv_ws h hws
        apply spacedOK_cons_space hsp
        · rw [headWS_replaceAmp]
          exact hhd
        · exact htail
      · exact spacedOK_cons_not_ws (by simpa using hws) htail

theorem hyphen_not_ws : isJsWS '-' = false := by decide

theorem lastWS_collapseWS : ∀ (l : List Char), lastWS l = false → lastWS (collapseWS l) = false := by
  intro l
  induction l with
  | nil => intro _; rfl
  | cons a as ih =>
    intro h
    cases as with
    | nil =>
      unfold collapseWS
      by_cases hws : isJsWS a = true
      · unfold lastWS at h
        simp at h
        rw [hws] at h
        cases h
      · rw [if_neg hws]
        exact h
    | cons d rest =>
      have hlast : lastWS (d :: rest) = false := by
        rw [← @lastWS_cons_of_ne a (d :: rest) (by simp)]
        exact h
      have hcne : collapseWS (d :: rest) ≠ [] := collapseWS_ne_nil (by simp)
      unfold collapseWS
      by_cases hws : isJsWS a = true
      · by_cases hwd : isJsWS d = true
        · rw [if_pos (by simp [hws, hwd])]
          exact ih hlast
        · rw [if_neg (by simp [hwd]), if_pos hws, lastWS_cons_of_ne hcne]
          exact ih hlast
      · rw [if_neg (by simp [hws]), if_neg hws, lastWS_cons_of_ne hcne]
        exact ih hlast

theorem headWS_tightenGo_true : ∀ (l : List Char), headWS (tightenGo true l) = false := by
  intro l
  induction l with
  | nil => rfl
  | cons a rest ih =>
    unfold tightenGo
    by_cases hws : isJsWS a = true
    · rw [if_pos hws, if_pos (by simp)]
      exact ih
    · rw [if_neg hws]
      by_cases ha : a = '-'
      · rw [if_pos ha, headWS_cons]
        exact hyphen_not_ws
      · rw [if_neg ha, headWS_cons]
        simpa using hws

theorem headWS_tightenGo_of {l : List Char} (b : Bool) (h : headWS l = false) :
    headWS (tightenGo b l) = false := by
  cases l with
  | nil => rfl
  | cons a rest =>
    rw [headWS_cons] at h
    unfold tightenGo
    rw [if_neg (by simp [h])]
    by_cases ha : a = '-'
    · rw [if_pos ha, headWS_cons]
      exact hyphen_not_ws
    · rw [if_neg ha, headWS_cons]
      exact h

theorem head_tightenGo_hyphen : ∀ (l : List Char),
    (tightenGo false l).head? = some '-' → (l.dropWhile isJsWS).head? = some '-' := by
  intro l
  induction l with
  | nil => intro h; simp [tightenGo] at h
  | cons a rest ih =>
    intro h
    unfold tightenGo at h
    by_cases hws : isJsWS a = true
    · rw [if_pos hws] at h
      rw [List.dropWhile_cons_of_pos hws]
      by_cases hlook : (false || ((rest.dropWhile isJsWS).head? == some '-')) = true
      · simp only [Bool.false_or] at hlook
        exact eq_of_beq hlook
      · rw [if_neg hlook] at h
        simp at h
        rw [h] at hws
        rw [hyphen_not_ws] at hws
        cases hws
    · rw [if_neg hws] at h
      rw [List.dropWhile_cons_of_neg (by simp [hws])]
      by_cases ha : a = '-'
      · rw [ha]
        rfl
      · rw [if_neg ha] at h
        simp at h
        exact absurd h ha

theorem noWsHyphen_tail {c : Char} {l : List Char} (h : noWsHyphen (c :: l) = true) :
    noWsHyphen l = true := by
  cases l with
  | nil => rfl
  | cons d rest =>
    unfold noWsHyphen at h
    rw [Bool.and_eq_true, Bool.and_eq_true] at h
    exact h.2

theorem noWsHyphen_cons_inv {c d : Char} {rest : List Char}
    (h : noWsHyphen (c :: d :: rest) = true) :
    (isJsWS c = true → d ≠ '-') ∧ (c = '-' → isJsWS d = false) ∧
      noWsHyphen (d :: rest) = true := by
  unfold noWsHyphen at h
  rw [Bool.and_eq_true, Bool.and_eq_true] at h
  obtain ⟨⟨h1, h2⟩, h3⟩ := h
  refine ⟨?_, ?_, h3⟩
  · intro hws hd
    rw [hws, hd] at h1
    simp at h1
  · intro hc
    rw [hc] at h2
    simp at h2
    exact h2

theorem noWsHyphen_cons {c : Char} {X : List Char}
    (h1 : isJsWS c = true → X.head? ≠ some '-')
    (h2 : c = '-' → headWS X = false)
    (hX : noWsHyphen X = true) : noWsHyphen (c :: X) = true := by
  cases X with
  | nil => rfl
  | cons d r =>
    unfold noWsHyphen
    rw [Bool.and_eq_true, Bool.and_eq_true]
    refine ⟨⟨?_, ?_⟩, hX⟩
    · by_cases hws : isJsWS c = true
      · have hd : d ≠ '-' := by
          intro hdh
          exact h1 hws (by rw [hdh]; rfl)
        simp [hws, hd]
      · simp [hws]
    · by_cases hc : c = '-'
      · have := h2 hc
        rw [headWS_cons] at this
        simp [hc, this]
      · simp [hc]

theorem noWsHyphen_tightenGo : ∀ (l : List Char) (b : Bool),
    noWsHyphen (tightenGo b l) = true := by
  intro l
  induction l with
  | nil => intro b; rfl
  | cons a rest ih =>
    intro b
    unfold tightenGo
    by_cases hws : isJsWS a = true
    · by_cases hlook : (b || ((rest.dropWhile isJsWS).head? == some '-')) = true
      · rw [if_pos hws, if_pos hlook]
        exact ih b
      · rw [if_pos hws, if_neg hlook]
        apply noWsHyphen_cons
        · intro _ hhd
          have := head_tightenGo_hyphen rest hhd
          rw [Bool.or_eq_true] at hlook
          push_neg at hlook
          have h2 := hlook.2
          rw [this] at h2
          simp at h2
        · intro hc
          rw [hc] at hws
          rw [hyphen_not_ws] at hws
          cases hws
        · exact ih false
    · rw [if_neg hws]
      by_cases ha : a = '-'
      · rw [if_pos ha]
        apply noWsHyphen_cons
        · intro hwsh
          rw [hyphen_not_ws] at hwsh
          cases hwsh
        · intro _
          exact headWS_tightenGo_true rest
        · exact ih true
      · rw [if_neg ha]
        apply noWsHyphen_cons
        · intro hwsh
          rw [hwsh] at hws
          exact absurd rfl hws
        · intro hc
          exact absurd hc ha
        · exact ih false

theorem contact_no_hyphen_lookahead : ∀ (rest : List Char) (c : Char),
    noWsHyphen (c :: rest) = true → isJsWS c = true →
    (rest.dropWhile isJsWS).head? ≠ some '-' := by
  intro rest
  induction rest with
  | nil => intro c _ _ h; simp at h
  | cons d r ih =>
    intro c h hws
    obtain ⟨h1, _, h3⟩ := noWsHyphen_cons_inv h
    by_cases hwd : isJsWS d = true
    · rw [List.dropWhile_cons_of_pos hwd]
      exact ih d h3 hwd
    · rw [List.dropWhile_cons_of_neg (by simp [hwd])]
      intro hcon
      simp at hcon
      exact h1 hws hcon

theorem tightenGo_eq_self : ∀ (l : List Char), noWsHyphen l = true →
    ∀ b : Bool, (b = true → headWS l = false) → tightenGo b l = l := by
  intro l
  induction l with
  | nil => intro _ b _; rfl
  | cons a rest ih =>
    intro h b hb
    unfold tightenGo
    by_cases hws : isJsWS a = true
    · have hbf : b = false := by
        cases b with
        | false => rfl
        | true =>
          have := hb rfl
          rw [headWS_cons, hws] at this
          cases this
      have hlook : ((rest.dropWhile isJsWS).head? == some '-') = false := by
        cases hx : ((rest.dropWhile isJsWS).head? == some '-') with
        | false => rfl
        | true =>
          exact absurd (eq_of_beq hx) (contact_no_hyphen_lookahead rest a h hws)
      rw [if_pos hws, hbf]
      rw [if_neg (by simp [hlook])]
      rw [ih (noWsHyphen_tail h) false (by intro hx; cases hx)]
    · rw [if_neg hws]
      by_cases ha : a = '-'
      · rw [if_pos ha]
        have hhd : headWS rest = false := by
          cases rest with
          | nil => rfl
          | cons d r =>
            obtain ⟨_, h2, _⟩ := noWsHyphen_cons_inv h
            rw [headWS_cons]
            exact h2 ha
        rw [ih (noWsHyphen_tail h) true (fun _ => hhd), ha]
      · rw [if_neg ha]
        rw [ih (noWsHyphen_tail h) false (by intro hx; cases hx)]

theorem getLast?_ne_nil {α : Type} {l : List α} {x : α} (h : l.getLast? = some x) : l ≠ [] := by
  cases l with
  | nil => simp at h
  | cons a as => simp

theorem getLast?_tightenGo : ∀ (l : List Char) (b : Bool) {c0 : Char},
    l.getLast? = some c0 → isJsWS c0 = false → (tightenGo b l).getLast? = some c0 := by
  intro l
  induction l with
  | nil => intro b c0 h _; simp at h
  | cons a rest ih =>
    intro b c0 h hc0
    cases rest with
    | nil =>
      simp at h
      unfold tightenGo
      rw [if_neg (by rw [h]; simp [hc0])]
      by_cases ha : a = '-'
      · rw [if_pos ha, ← ha]
        simp [tightenGo, h]
      · rw [if_neg ha]
        simp [tightenGo, h]
    | cons d r =>
      rw [List.getLast?_cons_cons] at h
      unfold tightenGo
      by_cases hws : isJsWS a = true
      · by_cases hlook : (b || (((d :: r).dropWhile isJsWS).head? == some '-')) = true
        · rw [if_pos hws, if_pos hlook]
          exact ih b h hc0
        · rw [if_pos hws, if_neg hlook]
          have hrec := ih false h hc0
          rw [getLast?_cons_of_ne a (getLast?_ne_nil hrec), hrec]
      · rw [if_neg hws]
        by_cases ha : a = '-'
        · rw [if_pos ha]
          have hrec := ih true h hc0
          rw [getLast?_cons_of_ne '-' (getLast?_ne_nil hrec), hrec]
        · rw [if_neg ha]
          have hrec := ih false h hc0
          rw [getLast?_cons_of_ne a (getLast?_ne_nil hrec), hrec]

theorem spacedOK_tightenGo : ∀ (l : List Char) (b : Bool), spacedOK l = true →
    spacedOK (tightenGo b l) = true := by
  intro l
  induction l with
  | nil => intro b _; rfl
  | cons a rest ih =>
    intro b h
    unfold tightenGo
    by_cases hws : isJsWS a = true
    · obtain ⟨hsp, hhd⟩ := spacedOK_cons_inv_ws h hws
      by_cases hlook : (b || ((rest.dropWhile isJsWS).head? == some '-')) = true
      · rw [if_pos hws, if_pos hlook]
        exact ih b (spacedOK_tail h)
      · rw [if_pos hws, if_neg hlook]
        exact spacedOK_cons_space hsp (headWS_tightenGo_of false hhd)
          (ih false (spacedOK_tail h))
    · rw [if_neg hws]
      by_cases ha : a = '-'
      · rw [if_pos ha]
        exact spacedOK_cons_not_ws hyphen_not_ws (ih true (spacedOK_tail h))
      · rw [if_neg ha]
        exact spacedOK_cons_not_ws (by simpa using hws) (ih false (spacedOK_tail h))

theorem aposChar_toNat {c : Char} (h : aposChar c = true) :
    c.toNat = 226 ∨ c.toNat = 8364 ∨ c.toNat = 8482 ∨ c.toNat = 39 := by
  unfold aposChar at h
  simp only [Bool.or_eq_true, decide_eq_true_eq] at h
  rcases h with ((h1 | h1) | h1) | h1
  · left; rw [h1]; rfl
  · right; left; rw [h1]; rfl
  · right; right; left; rw [h1]; rfl
  · right; right; right; rw [h1]; rfl

theorem aposChar_jsUpperChar {c : Char} (h : aposChar c = false) :
    aposChar (jsUpperChar c) = false := by
  unfold jsUpperChar
  by_cases hc : c = 'â'
  · rw [hc] at h
    simp [aposChar] at h
  · rw [if_neg hc]
    by_cases hlow : c.toNat ≥ 97 ∧ c.toNat ≤ 122
    · cases hx : aposChar c.toUpper with
      | false => rfl
      | true =>
        have hnat := aposChar_toNat hx
        rw [toUpper_toNat_lowercase hlow] at hnat
        omega
    · rw [toUpper_eq_self_of_not_lower hlow]
      exact h

theorem normalizeChars_mid_apos_free {l : List Char}
    (h : ∀ c ∈ l, aposChar c = false) :
    ∀ c ∈ replaceAmp (collapseWS (jsTrim (l.map jsUpperChar))), aposChar c = false := by
  intro c hc
  rcases mem_replaceAmp hc with hm | hA | hA | hA
  · rcases mem_collapseWS hm with hm2 | hsp
    · rcases List.mem_map.mp (mem_jsTrim hm2) with ⟨d, hd, rfl⟩
      exact aposChar_jsUpperChar (h d hd)
    · rw [hsp]; rfl
  all_goals rw [hA]; rfl

theorem removeApos_eq_self {l : List Char} (h : ∀ c ∈ l, aposChar c = false) :
    removeApos l = l := by
  unfold removeApos
  apply List.filter_eq_self.mpr
  intro a ha
  rw [h a ha]
  rfl

theorem getLast?_cons_isSome : ∀ (l : List Char) (a : Char), ∃ c, (a :: l).getLast? = some c := by
  intro l
  induction l with
  | nil => intro a; exact ⟨a, rfl⟩
  | cons d r ih =>
    intro a
    obtain ⟨c, hc⟩ := ih d
    exact ⟨c, by rw [List.getLast?_cons_cons]; exact hc⟩

theorem lastWS_tightenGo {l : List Char} (b : Bool) (h : lastWS l = false) :
    lastWS (tightenGo b l) = false := by
  cases hx : l.getLast? with
  | none =>
    have hnil : l = [] := by
      cases l with
      | nil => rfl
      | cons a as =>
        obtain ⟨c, hc⟩ := getLast?_cons_isSome as a
        rw [hc] at hx
        cases hx
    rw [hnil]
    cases b <;> rfl
  | some c0 =>
    have hc0 : isJsWS c0 = false := by
      unfold lastWS at h
      rw [hx] at h
      simpa using h
    unfold lastWS
    rw [getLast?_tightenGo l b hx hc0]
    simpa using hc0

theorem normalizeChars_idem {l : List Char} (h : ∀ c ∈ l, aposChar c = false) :
    normalizeChars (normalizeChars l) = normalizeChars l := by
  have hmid := normalizeChars_mid_apos_free h
  have hm5 : removeApos (replaceAmp (collapseWS (jsTrim (l.map jsUpperChar))))
      = replaceAmp (collapseWS (jsTrim (l.map jsUpperChar))) := removeApos_eq_self hmid
  have hyhead : headWS (normalizeChars l) = false := by
    unfold normalizeChars tightenHyphens
    rw [hm5]
    apply headWS_tightenGo_of
    rw [headWS_replaceAmp, headWS_collapseWS, headWS_jsTrim]
  have hylast : lastWS (normalizeChars l) = false := by
    unfold normalizeChars tightenHyphens
    rw [hm5]
    apply lastWS_tightenGo
    rw [lastWS_replaceAmp]
    exact lastWS_collapseWS _ (lastWS_jsTrim _)
  have hysp : spacedOK (normalizeChars l) = true := by
    unfold normalizeChars tightenHyphens
    rw [hm5]
    exact spacedOK_tightenGo _ false (spacedOK_replaceAmp _ (spacedOK_collapseWS _))
  have hyamp : '&' ∉ normalizeChars l := by
    intro hc
    unfold normalizeChars tightenHyphens at hc
    rw [hm5] at hc
    exact amp_not_mem _ (mem_tightenGo hc)
  have hyapos : ∀ c ∈ normalizeChars l, aposChar c = false := by
    intro c hc
    unfold normalizeChars tightenHyphens at hc
    rw [hm5] at hc
    exact hmid c (mem_tightenGo hc)
  have hynwh : noWsHyphen (normalizeChars l) = true := by
    unfold normalizeChars tightenHyphens
    exact noWsHyphen_tightenGo _ false
  have e1 : (normalizeChars l).map jsUpperChar = normalizeChars l := by
    conv_rhs => rw [← List.map_id (normalizeChars l)]
    apply List.map_congr_left
    intro a ha
    exact normalizeChars_upper_fixed l a ha
  show tightenHyphens (removeApos (replaceAmp (collapseWS (jsTrim
      ((normalizeChars l).map jsUpperChar))))) = normalizeChars l
  rw [e1, jsTrim_eq_self _ hyhead hylast, collapseWS_eq_self _ hysp,
    replaceAmp_eq_self _ hyamp, removeApos_eq_self hyapos]
  unfold tightenHyphens
  exact tightenGo_eq_self _ hynwh false (by intro hx; cases hx)

/-- Claim C5 (counterexample): `normalizeName` is not idempotent.  On the
input consisting of an ASCII apostrophe, a space and `A`, one application
yields the string `" A"` (the apostrophe deletion happens after the trim and
whitespace-collapse steps, re-exposing a leading space), while a second
application trims that space away, giving `"A"`. -/
theorem c5_counterexample :
    normalizeName (⟨[aposQuote, ' ', 'A']⟩ : String) = " A" ∧
    normalizeName " A" = "A" ∧
    normalizeName (normalizeName (⟨[aposQuote, ' ', 'A']⟩ : String)) ≠
      normalizeName (⟨[aposQuote, ' ', 'A']⟩ : String) := by
  decide

/-- Claim C5 (amended): `normalizeName` is idempotent on every input free of
the four characters of its apostrophe-deletion class (U+00E2, U+20AC, U+2122
and the ASCII apostrophe).  On such inputs the result of one application is
upper-case-fixed, has no edge whitespace, no whitespace runs, no ampersand,
no apostrophe-class character and no whitespace adjacent to a hyphen, so
every stage of a second application is the identity. -/
theorem c5_normalize_idempotent_apos_free (s : String)
    (h : ∀ c ∈ s.data, aposChar c = false) :
    normalizeName (normalizeName s) = normalizeName s := by
  show (⟨normalizeChars (normalizeChars s.data)⟩ : String) = ⟨normalizeChars s.data⟩
  rw [normalizeChars_idem h]

theorem c5_normalize_idempotent_apos_free_witness :
    (∀ c ∈ ("aB- c & d".data), aposChar c = false) ∧
    normalizeName (normalizeName "aB- c & d") = normalizeName "aB- c & d" :=
  ⟨by decide, c5_normalize_idempotent_apos_free "aB- c & d" (by decide)⟩

end Pipeline
